import Mathlib

/-! The service supervisor `devo`.

A shallow embedding of the Go sources of `devo`
(`daemon/watcher.go`, `daemon/service.go`, `daemon/daemon.go`, `daemon/start.go`,
`config/config.go`) and the properties proved about them.

Conventions of the embedding:

* a Go `string` is a `List Char` (`Str`);
* time is counted in milliseconds (`Nat`);
* goroutines, timers and the operating system are explicit state: a timer is a
  deadline with an armed bit, the monitor goroutine of a service is the instant at
  which it will clear the running flag;
* effects on the outside world are recorded in the order in which they happen.
-/

set_option autoImplicit false

namespace Devo

/-- Go `string`. -/
abbrev Str := List Char

/-! ## daemon/watcher.go -/

/-- The struct `fsnotify.Event`: the path that changed and the operation bit mask.
A value of this type is the key of the map `limiter` in `Watcher.watch`. -/
structure Event where
  Name : Str
  Op : Nat
deriving DecidableEq, Repr

/-- The bit `fsnotify.Create`. -/
def opCreate : Nat := 1

/-- The bit `fsnotify.Write`. -/
def opWrite : Nat := 2

/-- The bit `fsnotify.Remove`. -/
def opRemove : Nat := 4

/-- The bit `fsnotify.Rename`. -/
def opRename : Nat := 8

/-- The bit `fsnotify.Chmod`. -/
def opChmod : Nat := 16

/-- The duration `time.Second`, in milliseconds. -/
def second : Nat := 1000

/-- A `*time.Timer` made by `time.AfterFunc`: the instant at which its function runs
next, and whether it is armed (created or reset, and not yet fired). -/
structure Timer where
  deadline : Nat
  armed : Bool
deriving DecidableEq, Repr

/-- The state of `Watcher.watch`: the local map `limiter` (an association list with one
entry per key) and the values sent so far on the channel `Watcher.Events`, each with the
instant at which its timer fired. -/
structure Watcher where
  limiter : List (Event × Timer)
  Events : List (Nat × Event)
deriving DecidableEq, Repr

/-- The watcher right after `NewWatcher`: empty `limiter`, nothing sent. -/
def NewWatcher : Watcher := ⟨[], []⟩

/-- Whether a timer has fired by the instant `now`. -/
def due (now : Nat) (t : Timer) : Bool := t.armed && decide (t.deadline ≤ now)

/-- The timers of `limiter` that have fired by `now`, earliest deadline first. -/
def fired (now : Nat) (limiter : List (Event × Timer)) : List (Nat × Event) :=
  ((limiter.filter (fun p => due now p.2)).map (fun p => (p.2.deadline, p.1))).insertionSort
    (fun a b => a.1 ≤ b.1)

/-- Let the clock reach `now`: every armed timer whose deadline has passed runs its
function `func() { w.Events <- event }` and is no longer armed. -/
def runTimers (now : Nat) (w : Watcher) : Watcher :=
  { limiter := w.limiter.map (fun p => if due now p.2 then (p.1, { p.2 with armed := false }) else p)
    Events := w.Events ++ fired now w.limiter }

/-- The call `timer.Reset(time.Second)` on the timer stored under `event`: the function
will run one second from `now`, whether the timer was still armed or had fired. -/
def resetTimer (now : Nat) (event : Event) : List (Event × Timer) → List (Event × Timer)
  | [] => []
  | (e, t) :: rest =>
    if e = event then (e, ⟨now + second, true⟩) :: rest
    else (e, t) :: resetTimer now event rest

/-- One iteration of the loop of `Watcher.watch` for a value received from
`w.watcher.Events` at the instant `now` (watcher.go:65-75). -/
def onEvent (now : Nat) (event : Event) (w : Watcher) : Watcher :=
  let w := runTimers now w
  match w.limiter.lookup event with
  | some _ => { w with limiter := resetTimer now event w.limiter }
  | none => { w with limiter := (event, ⟨now + second, true⟩) :: w.limiter }

/-- The loop of `Watcher.watch` over the raw notifications, each with its arrival time. -/
def watch (w : Watcher) : List (Nat × Event) → Watcher
  | [] => w
  | (now, event) :: rest => watch (onEvent now event w) rest

/-- What has been sent on `Watcher.Events` by the instant `now`, after the raw
notifications `raw` were received by a watcher in state `w`. -/
def published (w : Watcher) (raw : List (Nat × Event)) (now : Nat) : List (Nat × Event) :=
  (runTimers now (watch w raw)).Events

/-- The arrival time of the last notification of a burst that starts at `t0`. -/
def burstEnd : Nat → List Nat → Nat
  | t0, [] => t0
  | _, t :: ts => burstEnd t ts

/-- The values equal to `event` among the values sent on `Watcher.Events`. -/
def eventsOf (event : Event) (sent : List (Nat × Event)) : List (Nat × Event) :=
  sent.filter (fun p => decide (p.2 = event))

/-- The arrival times of the raw notifications equal to `event`. -/
def hitTimes (event : Event) (raw : List (Nat × Event)) : List Nat :=
  (raw.filter (fun r => decide (r.2 = event))).map Prod.fst

/-- What the watcher holds for the key `event`: its timer in `limiter`, if any, and the
values equal to `event` sent so far. -/
def keyView (event : Event) (w : Watcher) : Option Timer × List (Nat × Event) :=
  (w.limiter.lookup event, eventsOf event w.Events)

/-- The part of `runTimers` that concerns the key `event`: its timer, when it is due at
`now`, sends `event` and is no longer armed (`keyView_runTimers`). -/
def keyTick (event : Event) (now : Nat) (v : Option Timer × List (Nat × Event)) :
    Option Timer × List (Nat × Event) :=
  match v.1 with
  | some t =>
    if due now t then (some { t with armed := false }, v.2 ++ [(t.deadline, event)]) else v
  | none => v

/-- The part of `onEvent` that concerns the key `event`, for the notification `r`: the
clock reaches the arrival time, and a notification equal to `event` arms the timer of
the key for one second (`keyView_onEvent`). -/
def keyStep (event : Event) (v : Option Timer × List (Nat × Event)) (r : Nat × Event) :
    Option Timer × List (Nat × Event) :=
  if r.2 = event then (some ⟨r.1 + second, true⟩, (keyTick event r.1 v).2)
  else keyTick event r.1 v

/-- The part of `watch` that concerns the key `event` (`keyView_watch`). -/
def keyRun (event : Event) (v : Option Timer × List (Nat × Event))
    (raw : List (Nat × Event)) : Option Timer × List (Nat × Event) :=
  raw.foldl (keyStep event) v

/-! ## Library functions used by the sources

`strings.ReplaceAll`, `strings.Replace`, `strings.Split`, `path.Clean`, `path.Base`,
`path.Dir` and the verb `%08x` of `fmt.Sprintf`, with the behaviour their Go
documentation gives them. -/

/-- Whether `old` is found at the head of `s`. -/
def startsWith (s old : Str) : Bool := old.isPrefixOf s

/-- Scan of `strings.ReplaceAll` for a non-empty `old`: `skip` counts the bytes of the
occurrence found last that are still to be passed over. -/
def replaceGo (old new : Str) : Nat → Str → Str
  | _, [] => []
  | skip + 1, _ :: cs => replaceGo old new skip cs
  | 0, c :: cs =>
    if startsWith (c :: cs) old then new ++ replaceGo old new (old.length - 1) cs
    else c :: replaceGo old new 0 cs

/-- The function `strings.ReplaceAll(s, old, new)` for a non-empty `old`: every
non-overlapping occurrence of `old`, from the left, becomes `new`. -/
def ReplaceAll (s old new : Str) : Str := replaceGo old new 0 s

/-- The function `strings.Replace(s, old, new, 1)`: the first occurrence of `old`
becomes `new`. -/
def ReplaceFirst (old new : Str) : Str → Str
  | [] => if old = [] then new else []
  | c :: cs =>
    if startsWith (c :: cs) old then new ++ (c :: cs).drop old.length
    else c :: ReplaceFirst old new cs

/-- The function `strings.Split(s, sep)` for the one-byte separator `sep`: the pieces
of `s` between the occurrences of `sep`; always at least one piece. -/
def Split (s : Str) (sep : Char) : List Str := s.splitOn sep

/-- Fold of `path.Clean` over the path elements; `stack` holds the elements kept so
far, last one first. -/
def cleanStep (rooted : Bool) (stack : List Str) (elem : Str) : List Str :=
  if elem = [] ∨ elem = ['.'] then stack
  else if elem = ['.', '.'] then
    match stack with
    | top :: below => if top = ['.', '.'] then elem :: stack else below
    | [] => if rooted then [] else [elem]
  else elem :: stack

/-- The function `path.Clean`: the shortest path equivalent to `p` by lexical
processing (single slashes, no `.` element, inner `..` resolved, `.` for empty). -/
def Clean (p : Str) : Str :=
  let rooted := p.head? = some '/'
  let stack := (p.splitOn '/').foldl (cleanStep rooted) []
  let out := (if rooted then ['/'] else []) ++ List.intercalate ['/'] stack.reverse
  if out = [] then ['.'] else out

/-- The function `path.Base`: the last element of the path. -/
def Base (p : Str) : Str :=
  if p = [] then ['.']
  else
    let stripped := (p.reverse.dropWhile (· = '/')).reverse
    let last := (stripped.reverse.takeWhile (· ≠ '/')).reverse
    if last = [] then ['/'] else last

/-- The function `path.Dir`: all but the last element of the path, cleaned. -/
def Dir (p : Str) : Str := Clean (p.reverse.dropWhile (· ≠ '/')).reverse

/-- The lowercase hexadecimal digit of a value below 16. -/
def hexDigit (n : Nat) : Char := Char.ofNat (if n < 10 then 48 + n else 87 + n)

/-- Hexadecimal digits of `n`, least significant first, without leading zeros. -/
def hexRev : Nat → Nat → Str
  | 0, _ => []
  | fuel + 1, n => if n < 16 then [hexDigit n] else hexDigit (n % 16) :: hexRev fuel (n / 16)

/-- The verb `%x`: lowercase hexadecimal digits, most significant first. -/
def fmtHex (n : Nat) : Str := (hexRev (n + 1) n).reverse

/-- The call `fmt.Sprintf("%08x", v)`: `%x` padded with zeros on the left to width 8. -/
def sprintf08x (v : Nat) : Str := List.replicate (8 - (fmtHex v).length) '0' ++ fmtHex v

/-- The characters that `%x` can produce. -/
def hexChars : Str := "0123456789abcdef".toList

/-! ## config/config.go: the configuration structures -/

/-- The field `Restart` of `config.Service`. -/
structure config.Restart where
  OnChange : Bool
  OnError : Bool
  OnExit : Bool
deriving DecidableEq, Repr

/-- The struct `config.Service`: one service of the configuration. `Env` is a Go map,
kept as an association list. -/
structure config.Service where
  Name : Str
  BinaryPath : Str
  Command : Str
  Dir : Str
  Restart : config.Restart
  CaddyEnable : Bool
  CaddyHost : Str
  LogStdout : Str
  LogStderr : Str
  Env : List (Str × Str)
deriving DecidableEq, Repr

/-- The struct `config.Storage`. -/
structure config.Storage where
  PidFile : Str
  SockFile : Str
  Binaries : Str
  Log : Str
deriving DecidableEq, Repr

/-- The struct `config.Config`. -/
structure config.Config where
  KillDelay : Int
  Storage : config.Storage
  Services : List config.Service
deriving DecidableEq, Repr

/-- A calendar instant, as `time.Now()` returns it. -/
structure Time where
  year : Nat
  month : Nat
  day : Nat
  hour : Nat
  minute : Nat
  sec : Nat
deriving DecidableEq, Repr

/-! ## daemon/service.go: state -/

/-- The struct `exec.Cmd` as far as `Start` fills it: `Args` holds the program name
followed by the arguments, as `exec.Command` builds it; `Stdout` and `Stderr` are the
handle of a log file, or `none` for the standard stream of the daemon. -/
structure Cmd where
  Path : Str
  Args : List Str
  Dir : Str
  Env : List Str
  Stdout : Option Nat
  Stderr : Option Nat
deriving DecidableEq, Repr

/-- The field `Path` that `exec.Command(name, ...)` sets: `name` itself, or, for a name
without a path separator (`filepath.Base(name) == name`), the path that `exec.LookPath`
finds for it. `lookPath` is `exec.LookPath`: the path found, empty when there is none. -/
def commandPath (lookPath : Str → Str) (name : Str) : Str :=
  if Base name = name ∧ lookPath name ≠ [] then lookPath name else name

/-- The function `exec.Command(name, arg...)`. -/
def Command (lookPath : Str → Str) (name : Str) (arg : List Str) : Cmd :=
  { Path := commandPath lookPath name, Args := name :: arg, Dir := [], Env := [],
    Stdout := none, Stderr := none }

/-- The struct `Service` of package daemon. `command` is `none` for a nil pointer, the
log files are handles, `none` for nil. -/
structure Service where
  binaryStorageFolder : Str
  killDelay : Int
  conf : config.Service
  command : Option Cmd
  binaryName : Str
  isRunningFlag : Int
  logStdout : Option Nat
  logStderr : Option Nat
deriving DecidableEq, Repr

/-- The signals that `Stop` sends. -/
inductive Signal
  | SIGTERM
  | SIGKILL
deriving DecidableEq, Repr

/-- How a launched process behaves, seen from its monitor goroutine (service.go:105-115):
after how many milliseconds `s.command.Run()` returns by itself (`none`: it keeps
running), after how many it returns once SIGTERM is delivered (`none`: the process
ignores SIGTERM), after how many once SIGKILL is delivered, and whether delivering each
signal fails. -/
structure Proc where
  exitsAfter : Option Nat
  termAfter : Option Nat
  killAfter : Nat
  termErr : Bool
  killErr : Bool
deriving DecidableEq, Repr

/-- An action of a service on the outside world; `signal` is the call, delivered or not. -/
inductive Effect
  | create (dest : Str)
  | copy (dest source : Str)
  | chmod (path : Str)
  | openFile (path : Str) (fd : Nat)
  | launch (cmd : Cmd)
  | signal (sig : Signal)
  | sleep (ms : Nat)
  | close (fd : Nat)
deriving DecidableEq, Repr

/-- What the environment decides: failures of system calls, the behaviour of launched
processes, the inherited environment, `Time.Format` and `exec.LookPath` (the path found
for a program name, empty when there is none). -/
structure Env where
  createFails : Str → Bool
  chmodFails : Str → Bool
  openFails : Str → Bool
  spawn : Cmd → Proc
  environ : List Str
  format : Time → Str → Str
  lookPath : Str → Str

/-- The part of the outside world a service acts on: the files (path and content), the
values `rand.Uint32` returns next, the calendar time, the clock in milliseconds, the
process launched last, the instant at which its monitor goroutine runs
`s.setRunning(false)` (`none`: not known yet), the open file handles, the next free
handle, the effects so far with their instants, and the lines logged. -/
structure World where
  files : List (Str × Str)
  draws : List Nat
  wall : Time
  clock : Nat
  proc : Proc
  exitAt : Option Nat
  openFiles : List Nat
  nextFd : Nat
  effects : List (Nat × Effect)
  log : List Str
deriving DecidableEq, Repr

/-- A service together with the world it runs in. -/
structure Sys where
  svc : Service
  world : World
deriving DecidableEq, Repr

/-- The function `NewService`. -/
def NewService (binaryStorageFolder : Str) (killDelay : Int) (conf : config.Service) : Service :=
  { binaryStorageFolder := binaryStorageFolder, killDelay := killDelay, conf := conf,
    command := none, binaryName := [], isRunningFlag := 0, logStdout := none, logStderr := none }

/-- The method `Service.IsRunning`. -/
def IsRunning (s : Service) : Bool := s.isRunningFlag == 1

/-- The method `Service.setRunning`. -/
def setRunning (s : Service) (value : Bool) : Service :=
  if value then { s with isRunningFlag := 1 } else { s with isRunningFlag := 0 }

/-- The monitor goroutine, observed at the current instant: once `s.command.Run()` has
returned, the deferred `s.setRunning(false)` has run. -/
def monitor (y : Sys) : Sys :=
  match y.world.exitAt with
  | some t =>
    if t ≤ y.world.clock then
      { svc := setRunning y.svc false, world := { y.world with exitAt := none } }
    else y
  | none => y

/-- A call of `log.Printf` or `log.Println`. -/
def logf (y : Sys) (line : Str) : Sys :=
  { y with world := { y.world with log := y.world.log ++ [line] } }

/-- Record an effect at the current instant. -/
def emit (y : Sys) (e : Effect) : Sys :=
  { y with world := { y.world with effects := y.world.effects ++ [(y.world.clock, e)] } }

/-- The call `time.Sleep(ms)`. -/
def Sleep (ms : Nat) (y : Sys) : Sys :=
  let y := emit y (Effect.sleep ms)
  { y with world := { y.world with clock := y.world.clock + ms } }

/-- The call `os.Stat(path)`: `true` when it returns an error. -/
def statFails (files : List (Str × Str)) (path : Str) : Bool := (files.lookup path).isNone

/-- Write `content` at `path`, creating the file or replacing its content. -/
def writeFile (files : List (Str × Str)) (path content : Str) : List (Str × Str) :=
  (path, content) :: files.filter (fun f => f.1 ≠ path)

/-- The name of the artifact for a draw `d` of `rand.Uint32` (service.go:186). -/
def binaryNameOf (name : Str) (d : Nat) : Str := name ++ ['-'] ++ sprintf08x (d % 2 ^ 32)

/-- The path at which the artifact named `binaryName` is stored. -/
def storedAt (folder binaryName : Str) : Str := Clean (folder ++ ['/'] ++ binaryName)

/-- The loop `for nameIsUsed := true; nameIsUsed; { ... }` of `copyBinary`
(service.go:185-192) over the values `rand.Uint32` returns: the name chosen and the
draws left, or `none` when every draw is taken (the loop does not end). -/
def generateName (folder name : Str) (files : List (Str × Str)) : List Nat → Option (Str × List Nat)
  | [] => none
  | d :: rest =>
    if statFails files (storedAt folder (binaryNameOf name d)) then some (binaryNameOf name d, rest)
    else generateName folder name files rest

/-- The function `copyFile(dest, source)`: `os.Create(dest)`, `os.Open(source)`,
`io.Copy`; `io.Copy` and the deferred `Close` calls succeed. The result is the new state
and the error, if any. -/
def copyFile (env : Env) (dest source : Str) (y : Sys) : Sys × Option Str :=
  if env.createFails dest then (y, some ("open ".toList ++ dest))
  else
    let y := emit y (Effect.create dest)
    let y := { y with world := { y.world with files := writeFile y.world.files dest [] } }
    match y.world.files.lookup source with
    | none => (y, some ("open ".toList ++ source))
    | some content =>
      let y := emit y (Effect.copy dest source)
      ({ y with world := { y.world with files := writeFile y.world.files dest content } }, none)

/-- The method `Service.copyBinary`; `none` when the naming loop does not end. -/
def copyBinary (env : Env) (y : Sys) : Option (Sys × Option Str) :=
  let y := monitor y
  if IsRunning y.svc then some (y, some "cannot change a binaryName of a running service".toList)
  else
    match generateName y.svc.binaryStorageFolder y.svc.conf.Name y.world.files y.world.draws with
    | none => none
    | some (binaryName, rest) =>
      let y : Sys := { svc := { y.svc with binaryName := binaryName },
                       world := { y.world with draws := rest } }
      let dest := storedAt y.svc.binaryStorageFolder y.svc.binaryName
      match copyFile env dest y.svc.conf.BinaryPath y with
      | (y, some err) =>
        some (y, some ("error copying binary ".toList ++ y.svc.binaryName ++ " : ".toList ++ err))
      | (y, none) =>
        if env.chmodFails dest then
          some (y, some ("error making binary executable ".toList ++ y.svc.binaryName
            ++ " : chmod ".toList ++ dest))
        else some (emit y (Effect.chmod dest), none)

/-! ## config/config.go: `UseDateInFilename` -/

/-- The leftmost match of `dateParamRegex`, the expression `\x7b([^\x7d]*)\x7d`, in `s`:
the text before the match, the submatch (the token body) and the text after the match.
The match starts at the first opening brace and ends at the first closing brace after
it; there is none when no closing brace follows the first opening brace. -/
def findDateParam (s : Str) : Option (Str × Str × Str) :=
  match s.dropWhile (· ≠ '\x7b') with
  | [] => none
  | _ :: r =>
    match r.dropWhile (· ≠ '\x7d') with
    | [] => none
    | _ :: post => some (s.takeWhile (· ≠ '\x7b'), r.takeWhile (· ≠ '\x7d'), post)

/-- The successive matches of `dateParamRegex` in `s`, each as the pair of `result[0]`
(the whole token) and `result[1]` (its body). -/
def findAllDateParams : Nat → Str → List (Str × Str)
  | 0, _ => []
  | fuel + 1, s =>
    match findDateParam s with
    | none => []
    | some (_, body, post) => ('\x7b' :: body ++ ['\x7d'], body) :: findAllDateParams fuel post

/-- The call `dateParamRegex.FindAllStringSubmatch(base, -1)`; the empty list is nil. -/
def FindAllStringSubmatch (base : Str) : List (Str × Str) := findAllDateParams base.length base

/-- The function `config.UseDateInFilename`, with `time.Now()` and `Time.Format` given. -/
def config.UseDateInFilename (format : Time → Str → Str) (now : Time) (filename : Str) : Str :=
  let base := Base filename
  let dateParamResult := FindAllStringSubmatch base
  if dateParamResult = [] then filename
  else
    let base := dateParamResult.foldl
      (fun base result => ReplaceFirst result.1 (format now result.2) base) base
    Dir filename ++ ['/'] ++ base

/-- The expansion the specification describes: each token of `s`, found from the left,
is replaced by `f` applied to its own body, independently of the other tokens. -/
def expandTokens (f : Str → Str) : Nat → Str → Str
  | 0, s => s
  | fuel + 1, s =>
    match findDateParam s with
    | none => s
    | some (pre, body, post) => pre ++ f body ++ expandTokens f fuel post

/-- The text of a base name that lies outside its tokens. -/
def outsideTokens (base : Str) : Str := expandTokens (fun _ => []) base.length base

/-! ## daemon/service.go: `Start`, `Stop`, `Restart` -/

/-- The token of the command template that stands for the staged artifact. -/
def binaryToken : Str := "{binary}".toList

/-- The call `os.OpenFile(filename, os.O_RDWR|os.O_CREATE|os.O_APPEND, 0666)`: the new
state and the handle, `none` when the call fails. -/
def OpenFile (env : Env) (filename : Str) (y : Sys) : Sys × Option Nat :=
  if env.openFails filename then (y, none)
  else
    let fd := y.world.nextFd
    let y := emit y (Effect.openFile filename fd)
    let files := if statFails y.world.files filename then (filename, []) :: y.world.files
      else y.world.files
    ({ y with world := { y.world with
        files := files, openFiles := fd :: y.world.openFiles, nextFd := fd + 1 } }, some fd)

/-- The command of `Start` (service.go:59-67): program and arguments from the command
template, or the staged artifact alone; `none` stands for the panic of `command[0]` on
an empty slice. -/
def resolveCommand (env : Env) (template binary : Str) : Option Cmd :=
  if template ≠ [] then
    match Split (ReplaceAll template binaryToken binary) ' ' with
    | name :: args => some (Command env.lookPath name args)
    | [] => none
  else some (Command env.lookPath binary [])

/-- The goroutine of `Start` begins: the process is launched and the environment fixes
when `s.command.Run()` will return by itself. -/
def launch (env : Env) (command : Cmd) (y : Sys) : Sys :=
  let y := emit y (Effect.launch command)
  let p := env.spawn command
  { y with world := { y.world with
      proc := p, exitAt := p.exitsAfter.map (fun d => y.world.clock + d) } }

/-- The block `//Stdout` of `Start` (service.go:76-88): the log file of the standard
output, opened when the configuration names one; on failure the stream of the daemon. -/
def openStdout (env : Env) (command : Cmd) (y : Sys) : Sys × Cmd :=
  if y.svc.conf.LogStdout ≠ [] then
    let filename := config.UseDateInFilename env.format y.world.wall y.svc.conf.LogStdout
    match OpenFile env filename y with
    | (y, none) =>
      (logf { y with svc := { y.svc with logStdout := none } }
        ("Service ".toList ++ y.svc.conf.Name ++ " cannot open stdout log file ".toList
          ++ filename ++ ". defaulting to daemon log".toList),
        { command with Stdout := none })
    | (y, some fd) =>
      ({ y with svc := { y.svc with logStdout := some fd } }, { command with Stdout := some fd })
  else (y, { command with Stdout := none })

/-- The block `//Stderr` of `Start` (service.go:90-102). -/
def openStderr (env : Env) (command : Cmd) (y : Sys) : Sys × Cmd :=
  if y.svc.conf.LogStderr ≠ [] then
    let filename := config.UseDateInFilename env.format y.world.wall y.svc.conf.LogStderr
    match OpenFile env filename y with
    | (y, none) =>
      (logf { y with svc := { y.svc with logStderr := none } }
        ("Service ".toList ++ y.svc.conf.Name ++ " cannot open stderr log file ".toList
          ++ filename ++ ". defaulting to daemon log".toList),
        { command with Stderr := none })
    | (y, some fd) =>
      ({ y with svc := { y.svc with logStderr := some fd } }, { command with Stderr := some fd })
  else (y, { command with Stderr := none })

/-- The second half of `Start` (service.go:68-115), once the command is resolved:
working directory, environment, log files, running flag, launch. -/
def startProcess (env : Env) (command : Cmd) (y : Sys) : Sys :=
  let command := { command with Dir := y.svc.conf.Dir }
  let env' := y.svc.conf.Env.map (fun kv => kv.1 ++ ['='] ++ kv.2)
  let command := { command with Env := env.environ ++ env' }
  let out := openStdout env command y
  let err := openStderr env out.2 out.1
  let y := { err.1 with svc := setRunning { err.1.svc with command := some err.2 } true }
  launch env err.2 y

/-- The method `Service.Start`; `none` when it does not return (the naming loop of
`copyBinary` does not end). -/
def Start (env : Env) (y : Sys) : Option Sys :=
  let y := monitor y
  if IsRunning y.svc then
    some (logf y ("Service ".toList ++ y.svc.conf.Name
      ++ " is already running, double run not supported yet".toList))
  else
    let y := logf y ("Starting service ".toList ++ y.svc.conf.Name)
    match copyBinary env y with
    | none => none
    | some (y, some err) =>
      some (logf y ("Cannot start service ".toList ++ y.svc.conf.Name ++ ": ".toList ++ err))
    | some (y, none) =>
      let binary := Clean (y.svc.binaryStorageFolder ++ ['/'] ++ y.svc.binaryName)
      match resolveCommand env y.svc.conf.Command binary with
      | none => none
      | some command => some (startProcess env command y)

/-- The earlier of two instants that may be unknown. -/
def earliest : Option Nat → Option Nat → Option Nat
  | none, b => b
  | a, none => a
  | some a, some b => some (min a b)

/-- The call `s.command.Process.Signal(sig)`: the new state and whether it failed. A
delivered signal fixes when the monitor goroutine will clear the running flag. -/
def sendSignal (sig : Signal) (y : Sys) : Sys × Bool :=
  let y := emit y (Effect.signal sig)
  match sig with
  | Signal.SIGTERM =>
    if y.world.proc.termErr then (y, true)
    else
      let exit := earliest y.world.exitAt (y.world.proc.termAfter.map (fun d => y.world.clock + d))
      ({ y with world := { y.world with exitAt := exit } }, false)
  | Signal.SIGKILL =>
    if y.world.proc.killErr then (y, true)
    else
      let exit := earliest y.world.exitAt (some (y.world.clock + y.world.proc.killAfter))
      ({ y with world := { y.world with exitAt := exit } }, false)

/-- The loop `for i := 0; i < 30; i++` of `Stop` (service.go:133-138), with `n`
iterations left. -/
def waitForExit : Nat → Sys → Sys
  | 0, y => y
  | n + 1, y =>
    let y := monitor y
    if !IsRunning y.svc then y
    else waitForExit n (Sleep 100 y)

/-- The call `file.Close()` on a log file handle that is not nil. -/
def closeFile (file : Option Nat) (y : Sys) : Sys :=
  match file with
  | none => y
  | some fd =>
    let y := emit y (Effect.close fd)
    { y with world := { y.world with openFiles := y.world.openFiles.filter (· ≠ fd) } }

/-- The end of `Stop` (service.go:149-155): close the log files. -/
def closeLogFiles (y : Sys) : Sys :=
  let y := closeFile y.svc.logStdout y
  closeFile y.svc.logStderr y

/-- The method `Service.Stop`. -/
def Stop (y : Sys) : Sys :=
  let y := monitor y
  if !IsRunning y.svc then logf y ("Service ".toList ++ y.svc.conf.Name ++ " is not running".toList)
  else
    let y := logf y ("Stopping service ".toList ++ y.svc.conf.Name)
    match sendSignal Signal.SIGTERM y with
    | (y, true) => logf y ("Error stopping service ".toList ++ y.svc.conf.Name)
    | (y, false) =>
      let y := waitForExit 30 y
      let y := monitor y
      if IsRunning y.svc then
        let y := logf y ("Service ".toList ++ y.svc.conf.Name
          ++ " did not stop, sending SIGKILL".toList)
        match sendSignal Signal.SIGKILL y with
        | (y, true) => logf y ("Error killing service ".toList ++ y.svc.conf.Name)
        | (y, false) => closeLogFiles y
      else closeLogFiles y

/-- The method `Service.Restart`; `none` when `Start` does not return. -/
def Restart (env : Env) (y : Sys) : Option Sys :=
  let y := monitor y
  let y := if IsRunning y.svc then Stop y else y
  Start env y

/-- The effects of `n` rounds of `time.Sleep(100 ms)` that start at the instant `c`. -/
def sleeps : Nat → Nat → List (Nat × Effect)
  | _, 0 => []
  | c, n + 1 => (c, Effect.sleep 100) :: sleeps (c + 100) n

/-- The effects of closing, at the instant `t`, the log files of the service that are
not nil. -/
def closes (t : Nat) (s : Service) : List (Nat × Effect) :=
  (s.logStdout.toList ++ s.logStderr.toList).map (fun fd => (t, Effect.close fd))

/-- The state after `n` rounds of `time.Sleep(100 ms)` during which nothing else
happens. -/
def slept (n : Nat) (y : Sys) : Sys :=
  { y with world := { y.world with
      clock := y.world.clock + 100 * n, effects := y.world.effects ++ sleeps y.world.clock n } }

/-- The instant at which the monitor goroutine will clear the running flag once SIGTERM
has been delivered at the current instant (`none`: it will not). -/
def exitAfterTerm (y : Sys) : Option Nat :=
  earliest y.world.exitAt (y.world.proc.termAfter.map (fun d => y.world.clock + d))

/-- The number of rounds of 100 ms after which the instant `t` has been reached, from
the instant `c`. -/
def rounds (c t : Nat) : Nat := (t - c + 99) / 100

/-- The state right after `Stop` has delivered SIGTERM (service.go:124-126). -/
def signalled (y : Sys) : Sys :=
  let y := emit (logf y ("Stopping service ".toList ++ y.svc.conf.Name))
    (Effect.signal Signal.SIGTERM)
  { y with world := { y.world with exitAt := exitAfterTerm y } }

/-- The same system with another value of the field `killDelay`. -/
def withKillDelay (k : Int) (y : Sys) : Sys := { y with svc := { y.svc with killDelay := k } }

/-- The state in which `Start` calls `copyBinary` (service.go:51-53): the running flag
has been read and the first line logged. -/
def starting (y : Sys) : Sys :=
  logf (monitor y) ("Starting service ".toList ++ (monitor y).svc.conf.Name)

/-! ## config/config.go: the checks of `check` on the services -/

/-- The loop of `check` over the services (config.go:150-161), as far as it looks at
the configuration alone: the name is not empty, the name is not used by an earlier
service, the binary path is not empty. `serviceNames` is the set of names seen so far.
The checks that consult the file system are left out; they reject more configurations
and change no name. The result is the error, `none` when there is none. -/
def config.checkServices (serviceNames : List Str) (i : Nat) : List config.Service → Option Str
  | [] => none
  | service :: rest =>
    if service.Name = [] then
      some ("Service name is empty at index ".toList ++ (Nat.repr i).toList)
    else if service.Name ∈ serviceNames then
      some ("Service name is not unique: ".toList ++ service.Name)
    else if service.BinaryPath = [] then
      some ("Service binary is empty for".toList ++ service.Name)
    else config.checkServices (service.Name :: serviceNames) (i + 1) rest

/-! ## daemon/daemon.go: `run` -/

/-- Assignment `m[k] = v` on a Go map kept as an association list. -/
def mapSet {β : Type} (m : List (Str × β)) (k : Str) (v : β) : List (Str × β) :=
  (k, v) :: m.filter (fun e => e.1 ≠ k)

/-- A call that `run` makes. A service instance is named by its rank of creation, which
is the index of its service in `config.Services`. -/
inductive Call
  | start (i : Nat)
  | stop (i : Nat)
  | restart (i : Nat)
  | watcherAdd (path : Str)
  | watcherClose
  | logNotLinked (path : Str)
deriving DecidableEq, Repr

/-- Whether a call is `Start`. -/
def Call.isStart : Call → Bool
  | Call.start _ => true
  | _ => false

/-- What the goroutine of `run` receives: a value of `watcher.Events` or the exit
signal. -/
inductive Received
  | event (e : Event)
  | exitSignal
deriving DecidableEq, Repr

/-- The local state of `run`: the maps `services` (name to instance) and
`servicesWatches` (path to name), the deferred calls (the one deferred last comes
first), the number of instances created, and the calls made so far. -/
structure Supervisor where
  services : List (Str × Nat)
  servicesWatches : List (Str × Str)
  deferred : List Call
  created : Nat
  calls : List Call
deriving DecidableEq, Repr

/-- The state of `run` before its first loop (daemon.go:17-21): the watcher is made and
its `Close` deferred. -/
def Supervisor.init : Supervisor :=
  { services := [], servicesWatches := [], deferred := [Call.watcherClose], created := 0,
    calls := [] }

/-- One iteration of the loop over `config.Services` (daemon.go:23-32). The instance
that `services[service.Name]` yields for `Start` and for the deferred `Stop` is the one
stored on the line before. -/
def setupStep (st : Supervisor) (service : config.Service) : Supervisor :=
  let created := st.created
  let st := { st with services := mapSet st.services service.Name created,
                      created := st.created + 1 }
  let st := { st with calls := st.calls ++ [Call.start created] }
  let st := { st with deferred := Call.stop created :: st.deferred }
  if service.Restart.OnChange then
    { st with servicesWatches := mapSet st.servicesWatches service.BinaryPath service.Name,
              calls := st.calls ++ [Call.watcherAdd service.BinaryPath] }
  else st

/-- The loop over `config.Services` (daemon.go:23-32). -/
def setup (config : config.Config) : Supervisor := config.Services.foldl setupStep Supervisor.init

/-- The case `event := <-watcher.Events` of the goroutine (daemon.go:38-46): the calls
it makes; `none` stands for the nil pointer dereference of `services[serviceName]` on
a name that is not in the map. -/
def onChange (st : Supervisor) (event : Event) : Option (List Call) :=
  if event.Op &&& opWrite = opWrite then
    match st.servicesWatches.lookup event.Name with
    | some serviceName =>
      match st.services.lookup serviceName with
      | some service => some [Call.restart service]
      | none => none
    | none => some [Call.logNotLinked event.Name]
  else some []

/-- The goroutine of `run` (daemon.go:35-52) up to its send on `done`: the calls it
makes until then; `none` when the exit signal never comes (`run` blocks for ever) or a
call panics. The goroutine does not return after the send: what it does afterwards is
part of `shutdown`. -/
def eventLoop (st : Supervisor) : List Received → Option (List Call)
  | [] => none
  | Received.exitSignal :: _ => some []
  | Received.event e :: rest =>
    match onChange st e with
    | none => none
    | some calls => (eventLoop st rest).map (fun later => calls ++ later)

/-- The end of `run`, from the moment `<-done` has received (daemon.go:53): `run` makes
its deferred calls, the one deferred last first, and returns after the last of them,
while the goroutine, which has no `return` after `done <- true`, goes on receiving. The
two run concurrently: `schedule` tells whose turn it is, `true` for the next deferred
call, `false` for the goroutine to take what it receives next; when the schedule is
used up `run` makes the deferred calls that are left. On a second exit signal the
goroutine blocks for ever in its send on `done`. A call is one step: the calls of the
two are interleaved, not their bodies. The result is the calls made, in order, until
`run` returns; `none` when a call panics. -/
def shutdown (st : Supervisor) : List Bool → List Call → List Received → Option (List Call)
  | [], deferred, _ => some deferred
  | _ :: _, [], _ => some []
  | true :: schedule, d :: deferred, later =>
    (shutdown st schedule deferred later).map (fun last => d :: last)
  | false :: schedule, d :: deferred, [] => shutdown st schedule (d :: deferred) []
  | false :: schedule, d :: deferred, Received.exitSignal :: _ =>
    shutdown st schedule (d :: deferred) []
  | false :: schedule, d :: deferred, Received.event e :: later =>
    match onChange st e with
    | none => none
    | some calls => (shutdown st schedule (d :: deferred) later).map (fun last => calls ++ last)

/-- The value of a string of decimal digits; `none` when the string is empty or holds
another character. -/
def parseDigits : Str → Option Nat
  | [] => none
  | s => s.foldl (fun acc c =>
      match acc with
      | none => none
      | some n => if c.isDigit then some (10 * n + (c.toNat - 48)) else none) (some 0)

/-- The call `strconv.ParseInt(s, 10, 64)`: an optional sign and decimal digits, nothing
else; the value must fit 64 bits. The error is the text of the `*strconv.NumError`
(the quoting of special characters in it is left out). -/
def ParseInt (s : Str) : Except Str Int :=
  let syntaxError : Except Str Int :=
    Except.error ("strconv.ParseInt: parsing \"".toList ++ s ++ "\": invalid syntax".toList)
  let rangeError : Except Str Int :=
    Except.error ("strconv.ParseInt: parsing \"".toList ++ s ++ "\": value out of range".toList)
  match s with
  | '-' :: digits =>
    match parseDigits digits with
    | none => syntaxError
    | some n => if n ≤ 2 ^ 63 then Except.ok (-(n : Int)) else rangeError
  | '+' :: digits =>
    match parseDigits digits with
    | none => syntaxError
    | some n => if n < 2 ^ 63 then Except.ok (n : Int) else rangeError
  | digits =>
    match parseDigits digits with
    | none => syntaxError
    | some n => if n < 2 ^ 63 then Except.ok (n : Int) else rangeError

/-- The struct `os.Process`, as far as `GetProcess` is concerned. -/
structure Process where
  Pid : Int
deriving DecidableEq, Repr

/-- What the operating system answers to `GetProcess`: `os.Open` (a file or the error),
`io.ReadAll` on that file (its content or the error), `os.FindProcess` (the process or
the error) and `process.Signal(syscall.Signal(0))` (`none` when the probe succeeds, the
error otherwise). -/
structure OS where
  Open : Str → Except Str Nat
  ReadAll : Nat → Except Str Str
  FindProcess : Int → Except Str Process
  Signal0 : Process → Option Str

/-- The function `GetProcess`: the process and no error, or no process and the error.
The conversion `int(pid)` is the identity (64-bit platform). -/
def GetProcess (os : OS) (config : config.Config) : Except Str Process :=
  match os.Open config.Storage.PidFile with
  | Except.error err => Except.error ("unable to open pid file: ".toList ++ err)
  | Except.ok file =>
    match os.ReadAll file with
    | Except.error err => Except.error ("unable to read pid file: ".toList ++ err)
    | Except.ok pidString =>
      match ParseInt pidString with
      | Except.error err => Except.error ("unable to parse pid file: ".toList ++ err)
      | Except.ok pid =>
        match os.FindProcess pid with
        | Except.error err => Except.error ("cannot find process: ".toList ++ err)
        | Except.ok process =>
          match os.Signal0 process with
          | some err => Except.error ("daemon is not running: ".toList ++ err)
          | none => Except.ok process

/-! ## Sample inputs

Concrete values on which the definitions are evaluated. -/

/-- Two decimal digits. -/
def twoDigits (n : Nat) : Str := [Char.ofNat (48 + n / 10 % 10), Char.ofNat (48 + n % 10)]

/-- A fragment of `Time.Format`: the layout elements `2006` (year), `01` (month) and
`02` (day of the month); every other character stands for itself. It agrees with
`Time.Format` on layouts made of these three elements and of characters that begin no
layout element, such as `-`. -/
def sampleFormat (t : Time) : Str → Str
  | '2' :: '0' :: '0' :: '6' :: rest =>
    twoDigits (t.year / 100) ++ twoDigits t.year ++ sampleFormat t rest
  | '0' :: '1' :: rest => twoDigits t.month ++ sampleFormat t rest
  | '0' :: '2' :: rest => twoDigits t.day ++ sampleFormat t rest
  | c :: rest => c :: sampleFormat t rest
  | [] => []

/-- A process that ignores SIGTERM and dies 5 ms after SIGKILL. -/
def stubbornProc : Proc :=
  { exitsAfter := none, termAfter := none, killAfter := 5, termErr := false, killErr := false }

/-- A process that exits 250 ms after SIGTERM. -/
def politeProc : Proc :=
  { exitsAfter := none, termAfter := some 250, killAfter := 5, termErr := false, killErr := false }

/-- A process to which SIGTERM cannot be delivered (`Process.Signal` returns an error). -/
def unreachableProc : Proc :=
  { exitsAfter := none, termAfter := none, killAfter := 5, termErr := true, killErr := false }

/-- A process that ignores SIGTERM and to which SIGKILL cannot be delivered. -/
def unkillableProc : Proc :=
  { exitsAfter := none, termAfter := none, killAfter := 5, termErr := false, killErr := true }

/-- An environment in which no system call fails, every process is `proc` and the only
program on the search path is `env`. -/
def sampleEnv (proc : Proc) : Env :=
  { createFails := fun _ => false, chmodFails := fun _ => false, openFails := fun _ => false,
    spawn := fun _ => proc, environ := ["HOME=/home/dev".toList], format := sampleFormat,
    lookPath := fun name => if name = "env".toList then "/usr/bin/env".toList else [] }

/-- A service `api` whose command template has two spaces after the binary token. -/
def sampleConf : config.Service :=
  { Name := "api".toList, BinaryPath := "/src/api".toList, Command := "{binary}  -v".toList,
    Dir := "/srv".toList, Restart := ⟨true, false, false⟩, CaddyEnable := false, CaddyHost := [],
    LogStdout := "/var/log/api-{2006-01-02}.log".toList, LogStderr := [],
    Env := [("PORT".toList, "80".toList)] }

/-- A world in which the source binary exists, the artifact of the draw 42 exists
already, and the next draws are 42, 43, 44. -/
def sampleWorld : World :=
  { files := [("/src/api".toList, "ELF".toList), ("/s/api-0000002a".toList, "OLD".toList)],
    draws := [42, 43, 44], wall := ⟨2024, 3, 5, 10, 30, 0⟩, clock := 0,
    proc := stubbornProc, exitAt := none, openFiles := [], nextFd := 3, effects := [], log := [] }

/-- The service `api` right after `NewService`, in the sample world. -/
def sampleSys : Sys := ⟨NewService "/s".toList 5 sampleConf, sampleWorld⟩

/-- The service `api` with the command template `env \x7bbinary\x7d`, right after
`NewService`, in the sample world. -/
def sampleSysEnv : Sys :=
  ⟨NewService "/s".toList 5 { sampleConf with Command := "env {binary}".toList }, sampleWorld⟩

/-- The service `api` after `Start`, its process being `proc`. -/
def sampleRunning (proc : Proc) : Sys := (Start (sampleEnv proc) sampleSys).getD sampleSys

/-- Two services that share one binary, both restarted on change. -/
def sampleConfig : config.Config :=
  { KillDelay := 5,
    Storage := ⟨"/run/devo.pid".toList, "/run/devo.sock".toList, "/s".toList,
      "/var/log/devo.log".toList⟩,
    Services := [{ sampleConf with Name := "api".toList, BinaryPath := "/src/server".toList },
      { sampleConf with Name := "admin".toList, BinaryPath := "/src/server".toList }] }

/-- An operating system in which the pid file holds `content` and the only live process
has the pid 4242. -/
def sampleOS (content : Str) : OS :=
  { Open := fun path =>
      if path = "/run/devo.pid".toList then Except.ok 3
      else Except.error ("open ".toList ++ path ++ ": no such file or directory".toList),
    ReadAll := fun _ => Except.ok content,
    FindProcess := fun pid => Except.ok ⟨pid⟩,
    Signal0 := fun p => if p.Pid = 4242 then none else some "os: process already finished".toList }

/-- Whether an effect is the launch of a process. -/
def Effect.isLaunch : Effect → Bool
  | Effect.launch _ => true
  | _ => false

/-- The number of processes launched so far. -/
def launches (y : Sys) : Nat := (y.world.effects.filter (fun e => e.2.isLaunch)).length

/-- The state `ms` milliseconds later, nothing but the monitor goroutine having run. -/
def later (ms : Nat) (y : Sys) : Sys :=
  monitor { y with world := { y.world with clock := y.world.clock + ms } }

/-! ## Properties of the change watcher -/

theorem lookup_eq_none_of_not_mem (event : Event) (lim : List (Event × Timer)) :
    lim.lookup event = none ↔ event ∉ lim.map Prod.fst := by
  induction lim with
  | nil => simp
  | cons p rest ih =>
    obtain ⟨e, t⟩ := p
    by_cases h : event = e
    · subst h; simp [List.lookup]
    · have h2 : (event == e) = false := by simpa using h
      simp [List.lookup, h2, ih, h]

theorem keys_resetTimer (now : Nat) (event : Event) (lim : List (Event × Timer)) :
    (resetTimer now event lim).map Prod.fst = lim.map Prod.fst := by
  induction lim with
  | nil => rfl
  | cons p rest ih =>
    obtain ⟨e, t⟩ := p
    by_cases h : e = event
    · simp [resetTimer, h]
    · simp [resetTimer, h, ih]

theorem lookup_map_snd (f : Timer → Timer) (event : Event) (lim : List (Event × Timer)) :
    (lim.map (fun p => (p.1, f p.2))).lookup event = (lim.lookup event).map f := by
  induction lim with
  | nil => rfl
  | cons p rest ih =>
    obtain ⟨e, t⟩ := p
    by_cases h : event = e
    · subst h; simp [List.lookup]
    · have h2 : (event == e) = false := by simpa using h
      simp only [List.map_cons, List.lookup, h2]
      exact ih

theorem lookup_runTimers (now : Nat) (event : Event) (lim : List (Event × Timer)) :
    (lim.map (fun p => if due now p.2 then (p.1, { p.2 with armed := false }) else p)).lookup event
      = (lim.lookup event).map (fun t => if due now t then { t with armed := false } else t) := by
  have hf : (fun p : Event × Timer => if due now p.2 then (p.1, { p.2 with armed := false }) else p)
      = fun p => (p.1, (fun t : Timer => if due now t then { t with armed := false } else t) p.2) := by
    funext p
    by_cases hd : due now p.2 = true <;> simp [hd]
  rw [hf]
  exact lookup_map_snd (fun t : Timer => if due now t then { t with armed := false } else t)
    event lim

theorem eventsOf_due_absent (now : Nat) (event : Event) (lim : List (Event × Timer))
    (h : event ∉ lim.map Prod.fst) :
    eventsOf event ((lim.filter (fun p => due now p.2)).map (fun p => (p.2.deadline, p.1))) = [] := by
  unfold eventsOf
  rw [List.filter_eq_nil_iff]
  intro q hq
  obtain ⟨p, hp, rfl⟩ := List.mem_map.mp hq
  have hp2 := (List.mem_filter.mp hp).1
  intro hc
  have : p.1 = event := by simpa using hc
  exact h (by rw [← this]; exact List.mem_map_of_mem _ hp2)

/-- The timers of the key `event` that have fired by `now`. -/
theorem eventsOf_due (now : Nat) (event : Event) (lim : List (Event × Timer))
    (hnodup : (lim.map Prod.fst).Nodup) :
    eventsOf event ((lim.filter (fun p => due now p.2)).map (fun p => (p.2.deadline, p.1)))
      = match lim.lookup event with
        | some t => if due now t then [(t.deadline, event)] else []
        | none => [] := by
  induction lim with
  | nil => rfl
  | cons p rest ih =>
    obtain ⟨e, t⟩ := p
    simp only [List.map_cons, List.nodup_cons] at hnodup
    by_cases h : event = e
    · subst h
      have habs := eventsOf_due_absent now event rest hnodup.1
      by_cases hd : due now t = true
      · simp only [List.filter_cons, hd, if_true, List.map_cons, List.lookup, beq_self_eq_true]
        unfold eventsOf at habs ⊢
        rw [List.filter_cons, habs]
        simp
      · simp only [List.filter_cons, hd, List.lookup, beq_self_eq_true]
        simpa using habs
    · have h2 : (event == e) = false := by simpa using h
      have hne : decide (e = event) = false := by simpa using (Ne.symm h)
      by_cases hd : due now t = true
      · simp only [List.filter_cons, hd, if_true, List.map_cons, List.lookup, h2]
        unfold eventsOf at ih ⊢
        rw [List.filter_cons, hne]
        exact ih hnodup.2
      · simp only [List.filter_cons, hd, List.lookup, h2]
        exact ih hnodup.2

theorem eventsOf_fired (now : Nat) (event : Event) (lim : List (Event × Timer))
    (hnodup : (lim.map Prod.fst).Nodup) :
    eventsOf event (fired now lim)
      = match lim.lookup event with
        | some t => if due now t then [(t.deadline, event)] else []
        | none => [] := by
  have hperm : (eventsOf event (fired now lim)).Perm
      (eventsOf event ((lim.filter (fun p => due now p.2)).map (fun p => (p.2.deadline, p.1)))) :=
    (List.perm_insertionSort _ _).filter _
  rw [eventsOf_due now event lim hnodup] at hperm
  cases hl : lim.lookup event with
  | none =>
    rw [hl] at hperm
    exact List.Perm.eq_nil hperm
  | some t =>
    rw [hl] at hperm
    by_cases hd : due now t = true
    · simp only [hd, if_true] at hperm ⊢
      exact List.perm_singleton.mp hperm
    · simp only [hd] at hperm ⊢
      exact List.Perm.eq_nil hperm

theorem keys_runTimers (now : Nat) (w : Watcher) :
    (runTimers now w).limiter.map Prod.fst = w.limiter.map Prod.fst := by
  unfold runTimers
  simp only [List.map_map]
  apply List.map_congr_left
  intro p _
  by_cases hd : due now p.2 = true <;> simp [hd]

/-- The function `runTimers` seen from one key. -/
theorem keyView_runTimers (now : Nat) (event : Event) (w : Watcher)
    (hnodup : (w.limiter.map Prod.fst).Nodup) :
    keyView event (runTimers now w) = keyTick event now (keyView event w) := by
  have h1 := lookup_runTimers now event w.limiter
  have h2 := eventsOf_fired now event w.limiter hnodup
  unfold keyView keyTick runTimers
  simp only [h1]
  unfold eventsOf at h2 ⊢
  rw [List.filter_append, h2]
  cases hl : w.limiter.lookup event with
  | none => simp
  | some t =>
    by_cases hd : due now t = true
    · simp [hd]
    · simp [hd]

theorem lookup_resetTimer_ne (now : Nat) (event other : Event) (lim : List (Event × Timer))
    (h : other ≠ event) :
    (resetTimer now other lim).lookup event = lim.lookup event := by
  induction lim with
  | nil => rfl
  | cons p rest ih =>
    obtain ⟨e, t⟩ := p
    by_cases he : e = other
    · have h2 : (event == e) = false := by
        rw [he]; simpa using (Ne.symm h)
      simp only [resetTimer, he, if_true, List.lookup]
      rw [he] at h2
      simp only [h2]
    · simp only [resetTimer, he, if_false, List.lookup]
      rw [ih]

theorem lookup_resetTimer_self (now : Nat) (event : Event) (lim : List (Event × Timer))
    (t : Timer) (h : lim.lookup event = some t) :
    (resetTimer now event lim).lookup event = some ⟨now + second, true⟩ := by
  induction lim with
  | nil => cases h
  | cons p rest ih =>
    obtain ⟨e, u⟩ := p
    by_cases he : e = event
    · subst he
      simp [resetTimer, List.lookup]
    · have h2 : (event == e) = false := by simpa using (Ne.symm he)
      simp only [List.lookup, h2] at h
      simp only [resetTimer, he, if_false, List.lookup, h2]
      exact ih h

/-- The map `limiter` keeps one entry per key. -/
theorem keys_onEvent (now : Nat) (event : Event) (w : Watcher)
    (hnodup : (w.limiter.map Prod.fst).Nodup) :
    ((onEvent now event w).limiter.map Prod.fst).Nodup := by
  have hk := keys_runTimers now w
  unfold onEvent
  dsimp only
  cases hl : (runTimers now w).limiter.lookup event with
  | none =>
    have hnot := (lookup_eq_none_of_not_mem event _).mp hl
    simp only [List.map_cons, List.nodup_cons]
    exact ⟨hnot, by rw [hk]; exact hnodup⟩
  | some t =>
    show ((resetTimer now event (runTimers now w).limiter).map Prod.fst).Nodup
    rw [keys_resetTimer, hk]
    exact hnodup

theorem keys_watch (w : Watcher) (raw : List (Nat × Event))
    (hnodup : (w.limiter.map Prod.fst).Nodup) :
    ((watch w raw).limiter.map Prod.fst).Nodup := by
  induction raw generalizing w with
  | nil => exact hnodup
  | cons r rest ih => exact ih (onEvent r.1 r.2 w) (keys_onEvent r.1 r.2 w hnodup)

/-- The function `onEvent` seen from one key. -/
theorem keyView_onEvent (event : Event) (r : Nat × Event) (w : Watcher)
    (hnodup : (w.limiter.map Prod.fst).Nodup) :
    keyView event (onEvent r.1 r.2 w) = keyStep event (keyView event w) r := by
  have hv := keyView_runTimers r.1 event w hnodup
  unfold keyStep
  rw [← hv]
  unfold onEvent
  dsimp only
  by_cases he : r.2 = event
  · rw [if_pos he, he]
    cases hl : (runTimers r.1 w).limiter.lookup event with
    | none => simp [keyView, List.lookup]
    | some t => simp [keyView, lookup_resetTimer_self r.1 event _ t hl]
  · rw [if_neg he]
    have h2 : (event == r.2) = false := by simpa using (Ne.symm he)
    cases hl : (runTimers r.1 w).limiter.lookup r.2 with
    | none => simp [keyView, List.lookup, h2]
    | some t => simp [keyView, lookup_resetTimer_ne r.1 event r.2 _ he]

/-- The function `watch` seen from one key. -/
theorem keyView_watch (event : Event) (w : Watcher) (raw : List (Nat × Event))
    (hnodup : (w.limiter.map Prod.fst).Nodup) :
    keyView event (watch w raw) = keyRun event (keyView event w) raw := by
  induction raw generalizing w with
  | nil => rfl
  | cons r rest ih =>
    obtain ⟨now, e⟩ := r
    show keyView event (watch (onEvent now e w) rest) = _
    rw [ih (onEvent now e w) (keys_onEvent now e w hnodup)]
    rw [keyView_onEvent event (now, e) w hnodup]
    rfl

theorem eventsOf_published (event : Event) (w : Watcher) (raw : List (Nat × Event)) (now : Nat)
    (hnodup : (w.limiter.map Prod.fst).Nodup) :
    eventsOf event (published w raw now)
      = (keyTick event now (keyRun event (keyView event w) raw)).2 := by
  rw [← keyView_watch event w raw hnodup, ← keyView_runTimers now event _ (keys_watch w raw hnodup)]
  rfl

theorem keyTick_early (event : Event) (now d : Nat) (sent : List (Nat × Event)) (h : now < d) :
    keyTick event now (some ⟨d, true⟩, sent) = (some ⟨d, true⟩, sent) := by
  have hd : due now ⟨d, true⟩ = false := by simp [due]; omega
  simp [keyTick, hd]

theorem keyTick_late (event : Event) (now d : Nat) (sent : List (Nat × Event)) (h : d ≤ now) :
    keyTick event now (some ⟨d, true⟩, sent) = (some ⟨d, false⟩, sent ++ [(d, event)]) := by
  have hd : due now ⟨d, true⟩ = true := by simp [due]; omega
  simp [keyTick, hd]

theorem keyTick_fired (event : Event) (now d : Nat) (sent : List (Nat × Event)) :
    keyTick event now (some ⟨d, false⟩, sent) = (some ⟨d, false⟩, sent) := by
  simp [keyTick, due]

/-- Letting the clock reach `t` and then `now` is letting it reach `now`. -/
theorem keyTick_keyTick (event : Event) (t now : Nat) (v : Option Timer × List (Nat × Event))
    (h : t ≤ now) : keyTick event now (keyTick event t v) = keyTick event now v := by
  obtain ⟨timer, sent⟩ := v
  cases timer with
  | none => rfl
  | some tm =>
    obtain ⟨d, armed⟩ := tm
    cases armed with
    | false => rw [keyTick_fired, keyTick_fired]
    | true =>
      by_cases hd : d ≤ t
      · rw [keyTick_late event t d sent hd, keyTick_fired, keyTick_late event now d sent (by omega)]
      · rw [keyTick_early event t d sent (by omega)]

/-- Notifications of other events received by `now` leave the key as the clock alone
does. -/
theorem keyRun_quiet (event : Event) (now : Nat) (seg : List (Nat × Event))
    (v : Option Timer × List (Nat × Event))
    (hq : ∀ r ∈ seg, r.2 ≠ event) (hle : ∀ r ∈ seg, r.1 ≤ now) :
    keyTick event now (keyRun event v seg) = keyTick event now v := by
  induction seg generalizing v with
  | nil => rfl
  | cons r rest ih =>
    have h1 : keyStep event v r = keyTick event r.1 v := by
      unfold keyStep
      rw [if_neg (hq r (List.mem_cons_self _ _))]
    show keyTick event now (keyRun event (keyStep event v r) rest) = _
    rw [ih _ (fun x hx => hq x (List.mem_cons_of_mem _ hx))
      (fun x hx => hle x (List.mem_cons_of_mem _ hx)), h1]
    exact keyTick_keyTick event r.1 now v (hle r (List.mem_cons_self _ _))

theorem keyRun_fired (event : Event) (d : Nat) (sent : List (Nat × Event))
    (seg : List (Nat × Event)) (hq : ∀ r ∈ seg, r.2 ≠ event) :
    keyRun event (some ⟨d, false⟩, sent) seg = (some ⟨d, false⟩, sent) := by
  induction seg with
  | nil => rfl
  | cons r rest ih =>
    show keyRun event (keyStep event _ r) rest = _
    unfold keyStep
    rw [if_neg (hq r (List.mem_cons_self _ _)), keyTick_fired]
    exact ih (fun x hx => hq x (List.mem_cons_of_mem _ hx))

/-- An armed timer whose deadline has passed by `now` has sent its event by `now`,
whatever notifications of other events were received. -/
theorem keyRun_quiet_late (event : Event) (now d : Nat) (sent : List (Nat × Event))
    (seg : List (Nat × Event)) (hq : ∀ r ∈ seg, r.2 ≠ event) (hd : d ≤ now) :
    keyTick event now (keyRun event (some ⟨d, true⟩, sent) seg)
      = (some ⟨d, false⟩, sent ++ [(d, event)]) := by
  induction seg with
  | nil =>
    show keyTick event now (some ⟨d, true⟩, sent) = _
    rw [keyTick_late event now d sent hd]
  | cons r rest ih =>
    show keyTick event now (keyRun event (keyStep event _ r) rest) = _
    unfold keyStep
    rw [if_neg (hq r (List.mem_cons_self _ _))]
    have hq' : ∀ x ∈ rest, x.2 ≠ event := fun x hx => hq x (List.mem_cons_of_mem _ hx)
    by_cases hr : d ≤ r.1
    · rw [keyTick_late event r.1 d sent hr, keyRun_fired event d _ rest hq', keyTick_fired]
    · rw [keyTick_early event r.1 d sent (by omega)]
      exact ih hq'

theorem hitTimes_nil (event : Event) (raw : List (Nat × Event)) (h : hitTimes event raw = []) :
    ∀ r ∈ raw, r.2 ≠ event := by
  intro r hr he
  have : r ∈ raw.filter (fun r => decide (r.2 = event)) :=
    List.mem_filter.mpr ⟨hr, by simpa using he⟩
  unfold hitTimes at h
  rw [List.map_eq_nil_iff] at h
  rw [h] at this
  cases this

/-- The notifications up to the first one equal to `event`. -/
theorem hitTimes_cons (event : Event) (raw : List (Nat × Event)) (t : Nat) (ts : List Nat)
    (h : hitTimes event raw = t :: ts) :
    ∃ seg rest, raw = seg ++ (t, event) :: rest ∧ (∀ r ∈ seg, r.2 ≠ event) ∧
      hitTimes event rest = ts := by
  induction raw with
  | nil => cases h
  | cons r raw ih =>
    obtain ⟨now, e⟩ := r
    by_cases he : e = event
    · subst he
      have hd : decide (((now, e) : Nat × Event).2 = e) = true := by simp
      unfold hitTimes at h
      rw [List.filter_cons, hd, if_pos rfl, List.map_cons] at h
      injection h with h1 h2
      subst h1
      exact ⟨[], raw, rfl, by simp, h2⟩
    · have hd : decide (((now, e) : Nat × Event).2 = event) = false := by simpa using he
      have h' : hitTimes event raw = t :: ts := by
        unfold hitTimes at h ⊢
        rw [List.filter_cons, hd] at h
        exact h
      obtain ⟨seg, rest, h1, h2, h3⟩ := ih h'
      refine ⟨(now, e) :: seg, rest, by rw [h1]; rfl, ?_, h3⟩
      intro r hr
      rcases List.mem_cons.mp hr with hr | hr
      · rw [hr]; exact he
      · exact h2 r hr

theorem keyRun_append (event : Event) (v : Option Timer × List (Nat × Event))
    (seg rest : List (Nat × Event)) (r : Nat × Event) :
    keyRun event v (seg ++ r :: rest) = keyRun event (keyStep event (keyRun event v seg) r) rest := by
  unfold keyRun
  rw [List.foldl_append]
  rfl

/-- What is received from the instant `t` on finds the key as the clock left it at `t`. -/
theorem keyRun_from (event : Event) (t now : Nat) (later : List (Nat × Event))
    (v : Option Timer × List (Nat × Event)) (hnow : t ≤ now) (hlater : ∀ r ∈ later, t ≤ r.1) :
    keyTick event now (keyRun event v later)
      = keyTick event now (keyRun event (keyTick event t v) later) := by
  cases later with
  | nil => exact (keyTick_keyTick event t now v hnow).symm
  | cons r rest =>
    have hr : t ≤ r.1 := hlater r (List.mem_cons_self _ _)
    have : keyStep event (keyTick event t v) r = keyStep event v r := by
      unfold keyStep
      rw [keyTick_keyTick event t r.1 v hr]
    show keyTick event now (keyRun event (keyStep event v r) rest)
      = keyTick event now (keyRun event (keyStep event (keyTick event t v) r) rest)
    rw [this]

/-- From the instant `t` on, a timer is armed for one second at least: what is sent is
sent at `t + second` or later. -/
theorem keyTick_after (event : Event) (t now : Nat) (v : Option Timer × List (Nat × Event))
    (hv : ∀ tm, v.1 = some tm → tm.armed = true → t + second ≤ tm.deadline) :
    ∃ more, (keyTick event now v).2 = v.2 ++ more ∧ (∀ p ∈ more, t + second ≤ p.1) ∧
      ∀ tm, (keyTick event now v).1 = some tm → tm.armed = true → t + second ≤ tm.deadline := by
  obtain ⟨timer, sent⟩ := v
  cases timer with
  | none => exact ⟨[], by simp [keyTick], by simp, by simp [keyTick]⟩
  | some tm =>
    obtain ⟨d, armed⟩ := tm
    cases armed with
    | false =>
      rw [keyTick_fired]
      exact ⟨[], by simp, by simp, by simp⟩
    | true =>
      have hd : t + second ≤ d := hv ⟨d, true⟩ rfl rfl
      by_cases hl : d ≤ now
      · rw [keyTick_late event now d sent hl]
        exact ⟨[(d, event)], rfl, by simpa using hd, by simp⟩
      · rw [keyTick_early event now d sent (by omega)]
        refine ⟨[], by simp, by simp, ?_⟩
        intro tm h1 _
        cases h1
        exact hd

theorem keyRun_after (event : Event) (t now : Nat) (later : List (Nat × Event))
    (v : Option Timer × List (Nat × Event))
    (hv : ∀ tm, v.1 = some tm → tm.armed = true → t + second ≤ tm.deadline)
    (hlater : ∀ r ∈ later, t ≤ r.1) :
    ∃ more, (keyTick event now (keyRun event v later)).2 = v.2 ++ more ∧
      ∀ p ∈ more, t + second ≤ p.1 := by
  induction later generalizing v with
  | nil =>
    obtain ⟨more, h1, h2, _⟩ := keyTick_after event t now v hv
    exact ⟨more, h1, h2⟩
  | cons r rest ih =>
    have hr : t ≤ r.1 := hlater r (List.mem_cons_self _ _)
    obtain ⟨m1, h1, h2, h3⟩ := keyTick_after event t r.1 v hv
    have hstep : (keyStep event v r).2 = v.2 ++ m1 ∧
        ∀ tm, (keyStep event v r).1 = some tm → tm.armed = true → t + second ≤ tm.deadline := by
      unfold keyStep
      by_cases he : r.2 = event
      · rw [if_pos he]
        refine ⟨h1, ?_⟩
        intro tm htm _
        cases htm
        show t + second ≤ r.1 + second
        omega
      · rw [if_neg he]
        exact ⟨h1, h3⟩
    obtain ⟨m2, h4, h5⟩ := ih (keyStep event v r) hstep.2
      (fun x hx => hlater x (List.mem_cons_of_mem _ hx))
    refine ⟨m1 ++ m2, ?_, ?_⟩
    · show (keyTick event now (keyRun event (keyStep event v r) rest)).2 = _
      rw [h4, hstep.1, List.append_assoc]
    · intro p hp
      rcases List.mem_append.mp hp with hp | hp
      · exact h2 p hp
      · exact h5 p hp

theorem keyRun_keyRun (event : Event) (v : Option Timer × List (Nat × Event))
    (raw later : List (Nat × Event)) :
    keyRun event v (raw ++ later) = keyRun event (keyRun event v raw) later := by
  unfold keyRun
  rw [List.foldl_append]

/-- While the timer of `event` is armed, a burst of `event` only re-arms it, whatever
notifications of other events come in between: the timer sends one value, one second
after the last notification of the burst. -/
theorem keyRun_burst (event : Event) (t0 : Nat) (ts : List Nat) (tp : Nat)
    (rest : List (Nat × Event)) (sent : List (Nat × Event))
    (htp : t0 ≤ tp) (hspan : ∀ t ∈ ts, t < t0 + second)
    (hsorted : rest.Pairwise (fun a b => a.1 ≤ b.1)) (hlow : ∀ r ∈ rest, t0 ≤ r.1)
    (hhits : hitTimes event rest = ts) :
    (∀ now, burstEnd tp ts + second ≤ now →
      keyTick event now (keyRun event (some ⟨tp + second, true⟩, sent) rest)
        = (some ⟨burstEnd tp ts + second, false⟩, sent ++ [(burstEnd tp ts + second, event)])) ∧
    (∀ now, now < burstEnd tp ts + second → (∀ r ∈ rest, r.1 ≤ now) →
      (keyTick event now (keyRun event (some ⟨tp + second, true⟩, sent) rest)).2 = sent) := by
  induction ts generalizing tp rest with
  | nil =>
    have hq := hitTimes_nil event rest hhits
    constructor
    · intro now hnow
      exact keyRun_quiet_late event now _ sent rest hq hnow
    · intro now hnow hle
      rw [keyRun_quiet event now rest _ hq hle, keyTick_early event now (tp + second) sent hnow]
  | cons t ts ih =>
    obtain ⟨seg, rest', h1, h2, h3⟩ := hitTimes_cons event rest t ts hhits
    subst h1
    have ht : t < t0 + second := hspan t (List.mem_cons_self _ _)
    have hlt : t0 ≤ t := hlow (t, event) (by simp)
    have hsplit := List.pairwise_append.mp hsorted
    have hseg : ∀ r ∈ seg, r.1 ≤ t := fun r hr => hsplit.2.2 r hr (t, event) (List.mem_cons_self _ _)
    have hstep : keyStep event (keyRun event (some ⟨tp + second, true⟩, sent) seg) (t, event)
        = (some ⟨t + second, true⟩, sent) := by
      unfold keyStep
      rw [if_pos rfl]
      show (some _, (keyTick event t (keyRun event (some ⟨tp + second, true⟩, sent) seg)).2) = _
      rw [keyRun_quiet event t seg _ h2 hseg, keyTick_early event t _ sent (by omega)]
    have := ih t rest' hlt (fun u hu => hspan u (List.mem_cons_of_mem _ hu))
      (List.pairwise_cons.mp hsplit.2.1).2
      (fun r hr => hlow r (by simp [hr])) h3
    rw [keyRun_append, hstep]
    constructor
    · intro now hnow
      exact this.1 now hnow
    · intro now hnow hle
      exact this.2 now hnow (fun r hr => hle r (by simp [hr]))

/-- C1 (amended): coalescing is per event value, the pair of path and operation mask.
From any state of the watcher, take the notifications received, sorted by arrival time,
whatever their paths and operations. When those equal to `event` are N >= 1
notifications, all less than one second after the first of them, the watcher sends
`event` exactly once for them on `Watcher.Events`: before one second has passed since
the last of them it has sent for `event` what it had sent when the first arrived; from
then on that and one more value, sent one second after the last of them; and whatever
is received after that second of silence adds values of `event` only behind that one,
sent one second later at least. The notifications of other paths or operations
received in between change nothing to it. -/
theorem burst_publishes_once_per_event (w : Watcher) (hw : (w.limiter.map Prod.fst).Nodup)
    (event : Event) (raw : List (Nat × Event)) (t0 : Nat) (ts : List Nat)
    (hsorted : raw.Pairwise (fun a b => a.1 ≤ b.1))
    (hhits : hitTimes event raw = t0 :: ts)
    (hspan : ∀ t ∈ ts, t < t0 + second) :
    (∀ now, now < burstEnd t0 ts + second → (∀ r ∈ raw, r.1 ≤ now) →
      eventsOf event (published w raw now) = eventsOf event (runTimers t0 w).Events) ∧
    (∀ now, burstEnd t0 ts + second ≤ now →
      eventsOf event (published w raw now)
        = eventsOf event (runTimers t0 w).Events ++ [(burstEnd t0 ts + second, event)]) ∧
    (∀ later now, (∀ r ∈ later, burstEnd t0 ts + second ≤ r.1) →
      burstEnd t0 ts + second ≤ now →
      ∃ more, eventsOf event (published w (raw ++ later) now)
          = eventsOf event (runTimers t0 w).Events
            ++ (burstEnd t0 ts + second, event) :: more ∧
        ∀ p ∈ more, burstEnd t0 ts + second + second ≤ p.1) := by
  obtain ⟨pre, rest, h1, h2, h3⟩ := hitTimes_cons event raw t0 ts hhits
  subst h1
  have hsplit := List.pairwise_append.mp hsorted
  have hpre : ∀ r ∈ pre, r.1 ≤ t0 :=
    fun r hr => hsplit.2.2 r hr (t0, event) (List.mem_cons_self _ _)
  have hcons := List.pairwise_cons.mp hsplit.2.1
  have hstep : keyStep event (keyRun event (keyView event w) pre) (t0, event)
      = (some ⟨t0 + second, true⟩, eventsOf event (runTimers t0 w).Events) := by
    unfold keyStep
    rw [if_pos rfl]
    show (some _, (keyTick event t0 (keyRun event (keyView event w) pre)).2) = _
    rw [keyRun_quiet event t0 pre _ h2 hpre, ← keyView_runTimers t0 event w hw]
    rfl
  have hburst := keyRun_burst event t0 ts t0 rest (eventsOf event (runTimers t0 w).Events)
    (le_refl _) hspan hcons.2 (fun r hr => hcons.1 r hr) h3
  refine ⟨?_, ?_, ?_⟩
  · intro now hnow hle
    rw [eventsOf_published event w _ now hw, keyRun_append, hstep]
    exact hburst.2 now hnow (fun r hr => hle r (by simp [hr]))
  · intro now hnow
    rw [eventsOf_published event w _ now hw, keyRun_append, hstep, hburst.1 now hnow]
  · intro later now hlater hnow
    rw [eventsOf_published event w _ now hw, keyRun_keyRun,
      keyRun_from event (burstEnd t0 ts + second) now later _ hnow hlater,
      keyRun_append, hstep, hburst.1 _ (le_refl _)]
    obtain ⟨more, h4, h5⟩ := keyRun_after event (burstEnd t0 ts + second) now later
      (some ⟨burstEnd t0 ts + second, false⟩,
        eventsOf event (runTimers t0 w).Events ++ [(burstEnd t0 ts + second, event)])
      (by intro tm htm harm; cases htm; cases harm) hlater
    refine ⟨more, ?_, h5⟩
    rw [h4]
    simp

/-- Witness of C1 (amended): three writes of `/srv/api` at 0 ms, 10 ms and 999 ms, with a
chmod of the same path at 5 ms, a write of `/srv/web` at 500 ms and another at 1500 ms,
send the write of `/srv/api` once, at 1999 ms. -/
theorem burst_publishes_once_per_event_witness :
    eventsOf ⟨"/srv/api".toList, opWrite⟩
        (published NewWatcher
          [(0, ⟨"/srv/api".toList, opWrite⟩), (5, ⟨"/srv/api".toList, opChmod⟩),
            (10, ⟨"/srv/api".toList, opWrite⟩), (500, ⟨"/srv/web".toList, opWrite⟩),
            (999, ⟨"/srv/api".toList, opWrite⟩), (1500, ⟨"/srv/web".toList, opWrite⟩)] 5000)
      = [(1999, ⟨"/srv/api".toList, opWrite⟩)] :=
  (burst_publishes_once_per_event NewWatcher (by simp [NewWatcher])
    ⟨"/srv/api".toList, opWrite⟩
    [(0, ⟨"/srv/api".toList, opWrite⟩), (5, ⟨"/srv/api".toList, opChmod⟩),
      (10, ⟨"/srv/api".toList, opWrite⟩), (500, ⟨"/srv/web".toList, opWrite⟩),
      (999, ⟨"/srv/api".toList, opWrite⟩), (1500, ⟨"/srv/web".toList, opWrite⟩)]
    0 [10, 999] (by decide) (by decide) (by decide)).2.1 5000 (by decide)

/-- Counterexample to C1 as stated: two notifications of the same path, 10 ms apart and
followed by silence, one a write and one a chmod, publish two events: the timers are
keyed by the whole event value, not by the path. -/
theorem burst_of_two_operations_publishes_twice :
    published NewWatcher
        [(0, ⟨"/srv/api".toList, opWrite⟩), (10, ⟨"/srv/api".toList, opChmod⟩)] 5000
      = [(1000, ⟨"/srv/api".toList, opWrite⟩), (1010, ⟨"/srv/api".toList, opChmod⟩)] := by
  decide

/-! ## Properties of the service: the running flag and `Start` -/

theorem monitor_of_running (y : Sys) (h : IsRunning (monitor y).svc = true) : monitor y = y := by
  unfold monitor at h ⊢
  cases he : y.world.exitAt with
  | none => rfl
  | some t =>
    simp only [he] at h ⊢
    by_cases ht : t ≤ y.world.clock
    · simp [ht, IsRunning, setRunning] at h
    · simp [ht]

/-- C4: `Start` on an instance whose running flag is set returns after logging one
line: the instance (command, binaryName, running flag, log file handles) is unchanged,
and so is the world apart from that line; no file is created or copied, no random value
is drawn, no process is launched. -/
theorem Start_on_running_is_noop (env : Env) (y : Sys)
    (hrun : IsRunning (monitor y).svc = true) :
    ∃ y', Start env y = some y' ∧ y'.svc = y.svc ∧
      y'.world = { y.world with log := y.world.log ++
        ["Service ".toList ++ y.svc.conf.Name
          ++ " is already running, double run not supported yet".toList] } ∧
      y'.world.effects = y.world.effects ∧ y'.world.files = y.world.files ∧
      y'.world.draws = y.world.draws := by
  have hm := monitor_of_running y hrun
  rw [hm] at hrun
  refine ⟨logf y ("Service ".toList ++ y.svc.conf.Name
    ++ " is already running, double run not supported yet".toList), ?_, rfl, rfl, rfl, rfl, rfl⟩
  unfold Start
  simp only [hm, hrun, if_true]

/-! ## Properties of staging: `copyBinary` -/

theorem hexDigit_mem (n : Nat) (h : n < 16) : hexDigit n ∈ hexChars := by
  revert n
  decide

theorem hexRev_chars (fuel n : Nat) : ∀ ch ∈ hexRev fuel n, ch ∈ hexChars := by
  induction fuel generalizing n with
  | zero => simp [hexRev]
  | succ fuel ih =>
    intro ch hch
    unfold hexRev at hch
    by_cases h : n < 16
    · simp only [h, if_true, List.mem_singleton] at hch
      rw [hch]; exact hexDigit_mem n h
    · simp only [h, if_false, List.mem_cons] at hch
      rcases hch with hch | hch
      · rw [hch]; exact hexDigit_mem _ (Nat.mod_lt _ (by decide))
      · exact ih _ ch hch

theorem hexRev_length (fuel n k : Nat) (hk : 1 ≤ k) (hn : n < 16 ^ k) :
    (hexRev fuel n).length ≤ k := by
  induction fuel generalizing n k with
  | zero => simp [hexRev]
  | succ fuel ih =>
    unfold hexRev
    by_cases h : n < 16
    · simp [h]; omega
    · simp only [h, if_false, List.length_cons]
      obtain ⟨j, rfl⟩ : ∃ j, k = j + 1 := ⟨k - 1, by omega⟩
      have hj : 1 ≤ j := by
        rcases Nat.eq_zero_or_pos j with h0 | h0
        · subst h0; simp at hn; omega
        · exact h0
      have hdiv : n / 16 < 16 ^ j := by
        rw [Nat.div_lt_iff_lt_mul (by decide)]
        rw [pow_succ] at hn
        exact hn
      have := ih (n / 16) j hj hdiv
      omega

/-- A 32-bit value printed with `%08x` is exactly 8 characters long. -/
theorem sprintf08x_length (v : Nat) (hv : v < 2 ^ 32) : (sprintf08x v).length = 8 := by
  have h16 : v < 16 ^ 8 := by
    have : (16 : Nat) ^ 8 = 2 ^ 32 := by norm_num
    omega
  have hlen : (fmtHex v).length ≤ 8 := by
    unfold fmtHex
    rw [List.length_reverse]
    exact hexRev_length (v + 1) v 8 (by decide) h16
  unfold sprintf08x
  rw [List.length_append, List.length_replicate]
  omega

/-- The verb `%08x` prints lowercase hexadecimal digits only. -/
theorem sprintf08x_chars (v : Nat) : ∀ ch ∈ sprintf08x v, ch ∈ hexChars := by
  intro ch hch
  unfold sprintf08x at hch
  rcases List.mem_append.mp hch with h | h
  · have : ch = '0' := (List.mem_replicate.mp h).2
    rw [this]; decide
  · unfold fmtHex at h
    exact hexRev_chars _ _ ch (List.mem_reverse.mp h)

theorem lookup_filter_ne (files : List (Str × Str)) (path p : Str) (h : p ≠ path) :
    (files.filter (fun f => f.1 ≠ path)).lookup p = files.lookup p := by
  induction files with
  | nil => rfl
  | cons f rest ih =>
    obtain ⟨q, c⟩ := f
    by_cases hq : q = path
    · subst hq
      have hb : (p == q) = false := by simpa using h
      have hd : decide ((q, c).1 ≠ q) = false := by simp
      rw [List.filter_cons, hd]
      simp only [Bool.false_eq_true, if_false, List.lookup, hb]
      exact ih
    · have hd : decide ((q, c).1 ≠ path) = true := by simpa using hq
      rw [List.filter_cons, hd]
      simp only [if_true, List.lookup]
      rw [ih]

/-- Writing a file leaves the content of every other path as it was. -/
theorem lookup_writeFile_ne (files : List (Str × Str)) (path content p : Str) (h : p ≠ path) :
    (writeFile files path content).lookup p = files.lookup p := by
  have hb : (p == path) = false := by simpa using h
  unfold writeFile
  simp only [List.lookup, hb]
  exact lookup_filter_ne files path p h

/-- The naming loop skips the draws whose path exists and stops at the first free one. -/
theorem generateName_first_free (folder name : Str) (files : List (Str × Str))
    (taken : List Nat) (d : Nat) (rest : List Nat)
    (htaken : ∀ c ∈ taken, statFails files (storedAt folder (binaryNameOf name c)) = false)
    (hfree : statFails files (storedAt folder (binaryNameOf name d)) = true) :
    generateName folder name files (taken ++ d :: rest) = some (binaryNameOf name d, rest) := by
  induction taken with
  | nil => simp [generateName, hfree]
  | cons c taken ih =>
    have hc := htaken c (List.mem_cons_self _ _)
    simp only [List.cons_append, generateName, hc]
    exact ih (fun e he => htaken e (List.mem_cons_of_mem _ he))

/-- The function `copyFile` changes no file other than `dest`. -/
theorem copyFile_preserves (env : Env) (dest source : Str) (y : Sys) (p : Str) (h : p ≠ dest) :
    (copyFile env dest source y).1.world.files.lookup p = y.world.files.lookup p := by
  unfold copyFile
  by_cases hc : env.createFails dest = true
  · simp [hc]
  · simp only [hc]
    cases hs : ((emit y (Effect.create dest)).world.files |> fun fs =>
        (writeFile fs dest []).lookup source) with
    | none =>
      simp only [emit] at hs ⊢
      simp [hs, lookup_writeFile_ne _ _ _ _ h]
    | some content =>
      simp only [emit] at hs ⊢
      simp [hs, lookup_writeFile_ne _ _ _ _ h]

@[simp] theorem monitor_files (y : Sys) : (monitor y).world.files = y.world.files := by
  unfold monitor; split <;> [split; skip] <;> rfl

@[simp] theorem monitor_draws (y : Sys) : (monitor y).world.draws = y.world.draws := by
  unfold monitor; split <;> [split; skip] <;> rfl

@[simp] theorem monitor_conf (y : Sys) : (monitor y).svc.conf = y.svc.conf := by
  unfold monitor; split <;> [split; skip] <;> simp [setRunning]

@[simp] theorem monitor_folder (y : Sys) :
    (monitor y).svc.binaryStorageFolder = y.svc.binaryStorageFolder := by
  unfold monitor; split <;> [split; skip] <;> simp [setRunning]

theorem copyFile_svc (env : Env) (dest source : Str) (y : Sys) :
    (copyFile env dest source y).1.svc = y.svc := by
  unfold copyFile
  split
  · rfl
  · simp only [emit]
    split <;> rfl

theorem copyFile_draws (env : Env) (dest source : Str) (y : Sys) :
    (copyFile env dest source y).1.world.draws = y.world.draws := by
  unfold copyFile
  split
  · rfl
  · simp only [emit]
    split <;> rfl

theorem copyBinary_core (env : Env) (y : Sys)
    (taken : List Nat) (d : Nat) (rest : List Nat)
    (hm : monitor y = y) (hstop : IsRunning y.svc = false)
    (hdraws : y.world.draws = taken ++ d :: rest)
    (htaken : ∀ c ∈ taken, statFails y.world.files
      (storedAt y.svc.binaryStorageFolder (binaryNameOf y.svc.conf.Name c)) = false)
    (hfree : statFails y.world.files
      (storedAt y.svc.binaryStorageFolder (binaryNameOf y.svc.conf.Name d)) = true) :
    ∃ y' err, copyBinary env y = some (y', err) ∧
      y'.svc.binaryName = y.svc.conf.Name ++ ['-'] ++ sprintf08x (d % 2 ^ 32) ∧
      (sprintf08x (d % 2 ^ 32)).length = 8 ∧
      (∀ ch ∈ sprintf08x (d % 2 ^ 32), ch ∈ hexChars) ∧
      y'.world.draws = rest ∧
      (∀ p content, y.world.files.lookup p = some content →
        y'.world.files.lookup p = some content) ∧
      (∀ c ∈ taken, binaryNameOf y.svc.conf.Name c ≠ y'.svc.binaryName) := by
  have hgen := generateName_first_free y.svc.binaryStorageFolder y.svc.conf.Name y.world.files
    taken d rest htaken hfree
  have hlen := sprintf08x_length (d % 2 ^ 32) (Nat.mod_lt _ (by norm_num))
  have hchars := sprintf08x_chars (d % 2 ^ 32)
  have hnew : ∀ c ∈ taken, binaryNameOf y.svc.conf.Name c ≠ binaryNameOf y.svc.conf.Name d := by
    intro c hc heq
    have := htaken c hc
    rw [heq, hfree] at this
    cases this
  -- the state on which the copy runs
  let y1 : Sys :=
    { svc := { y.svc with binaryName := binaryNameOf y.svc.conf.Name d },
      world := { y.world with draws := rest } }
  let dest := storedAt y.svc.binaryStorageFolder (binaryNameOf y.svc.conf.Name d)
  have hkeep : ∀ p content, y.world.files.lookup p = some content →
      (copyFile env dest y.svc.conf.BinaryPath y1).1.world.files.lookup p = some content := by
    intro p content hp
    have hne : p ≠ dest := by
      intro he
      rw [he] at hp
      simp only [statFails] at hfree
      rw [hp] at hfree
      cases hfree
    rw [copyFile_preserves env dest _ y1 p hne]
    exact hp
  have hsvc : (copyFile env dest y.svc.conf.BinaryPath y1).1.svc = y1.svc := copyFile_svc _ _ _ _
  have hdr : (copyFile env dest y.svc.conf.BinaryPath y1).1.world.draws = rest :=
    copyFile_draws _ _ _ _
  have hcopy : copyBinary env y =
      match copyFile env dest y.svc.conf.BinaryPath y1 with
      | (y2, some err) =>
        some (y2, some ("error copying binary ".toList ++ y2.svc.binaryName ++ " : ".toList ++ err))
      | (y2, none) =>
        if env.chmodFails dest then
          some (y2, some ("error making binary executable ".toList ++ y2.svc.binaryName
            ++ " : chmod ".toList ++ dest))
        else some (emit y2 (Effect.chmod dest), none) := by
    unfold copyBinary
    simp only [hm, hstop, hdraws, hgen]
    rfl
  rw [hcopy]
  rcases hres : copyFile env dest y.svc.conf.BinaryPath y1 with ⟨y2, err⟩
  rw [hres] at hkeep hsvc hdr
  simp only at hkeep hsvc hdr
  have hname : y2.svc.binaryName = binaryNameOf y.svc.conf.Name d := by rw [hsvc]
  cases err with
  | some e =>
    exact ⟨y2, _, rfl, hname, hlen, hchars, hdr, hkeep, fun c hc => by rw [hname]; exact hnew c hc⟩
  | none =>
    by_cases hch : env.chmodFails dest = true
    · simp only [hch, if_true]
      exact ⟨y2, _, rfl, hname, hlen, hchars, hdr, hkeep,
        fun c hc => by rw [hname]; exact hnew c hc⟩
    · simp only [hch]
      exact ⟨emit y2 (Effect.chmod dest), none, rfl, hname, hlen, hchars, hdr, hkeep,
        fun c hc => by
          show binaryNameOf y.svc.conf.Name c ≠ y2.svc.binaryName
          rw [hname]; exact hnew c hc⟩

/-- C5: staging takes the first free draw. When the values `rand.Uint32` returns are
`taken ++ d :: rest`, every draw of `taken` names a path that exists in the storage
folder and `d` names one that does not, `copyBinary` returns having chosen the name
`<serviceName>-<h>`, with `h` the 8 lowercase hexadecimal digits of `d` as a 32-bit
value; it has consumed exactly the draws up to `d`; every file that existed keeps its
content (the copy is written over no existing file); and the name differs from the name
of every draw that collided. -/
theorem copyBinary_takes_first_free_draw (env : Env) (y : Sys)
    (taken : List Nat) (d : Nat) (rest : List Nat)
    (hstop : IsRunning (monitor y).svc = false)
    (hdraws : y.world.draws = taken ++ d :: rest)
    (htaken : ∀ c ∈ taken, statFails y.world.files
      (storedAt y.svc.binaryStorageFolder (binaryNameOf y.svc.conf.Name c)) = false)
    (hfree : statFails y.world.files
      (storedAt y.svc.binaryStorageFolder (binaryNameOf y.svc.conf.Name d)) = true) :
    ∃ y' err, copyBinary env y = some (y', err) ∧
      y'.svc.binaryName = y.svc.conf.Name ++ ['-'] ++ sprintf08x (d % 2 ^ 32) ∧
      (sprintf08x (d % 2 ^ 32)).length = 8 ∧
      (∀ ch ∈ sprintf08x (d % 2 ^ 32), ch ∈ hexChars) ∧
      y'.world.draws = rest ∧
      (∀ p content, y.world.files.lookup p = some content →
        y'.world.files.lookup p = some content) ∧
      (∀ c ∈ taken, binaryNameOf y.svc.conf.Name c ≠ y'.svc.binaryName) := by
  have hidem : monitor (monitor y) = monitor y := by
    unfold monitor
    cases he : y.world.exitAt with
    | none => simp [he]
    | some t =>
      by_cases ht : t ≤ y.world.clock
      · simp [he, ht]
      · simp [he, ht]
  have hsame : copyBinary env y = copyBinary env (monitor y) := by
    unfold copyBinary
    simp only [hidem]
  have hcore := copyBinary_core env (monitor y) taken d rest hidem hstop
    (by rw [monitor_draws]; exact hdraws)
    (by simpa only [monitor_files, monitor_conf, monitor_folder] using htaken)
    (by simpa only [monitor_files, monitor_conf, monitor_folder] using hfree)
  rw [hsame]
  simpa only [monitor_files, monitor_conf, monitor_folder] using hcore

/-! ## Properties of the launch command -/

theorem splitOnP_no_sep (p : Char → Bool) (s : Str) :
    ∀ f ∈ s.splitOnP p, ∀ ch ∈ f, p ch = false := by
  induction s with
  | nil => simp
  | cons c cs ih =>
    rw [List.splitOnP_cons]
    by_cases hc : p c = true
    · simp only [hc, if_true, List.mem_cons]
      intro f hf
      rcases hf with hf | hf
      · subst hf; simp
      · exact ih f hf
    · simp only [hc]
      cases hs : cs.splitOnP p with
      | nil => exact absurd hs (List.splitOnP_ne_nil p cs)
      | cons g gs =>
        rw [hs] at ih
        intro f hf
        simp only [List.modifyHead, Bool.false_eq_true, if_false, List.mem_cons] at hf
        rcases hf with hf | hf
        · subst hf
          intro ch hch
          rcases List.mem_cons.mp hch with h | h
          · rw [h]; simpa using hc
          · exact ih g (List.mem_cons_self _ _) ch h
        · exact ih f (List.mem_cons_of_mem _ hf)

/-- The fields of `strings.Split(s, sep)` joined with `sep` give back `s`, and no
field contains `sep`. -/
theorem Split_spec (s : Str) (sep : Char) :
    List.intercalate [sep] (Split s sep) = s ∧ ∀ f ∈ Split s sep, sep ∉ f := by
  refine ⟨List.intercalate_splitOn s sep, ?_⟩
  intro f hf hmem
  have := splitOnP_no_sep (· == sep) s f hf sep hmem
  simp at this

theorem Split_ne_nil (s : Str) (sep : Char) : Split s sep ≠ [] :=
  List.splitOnP_ne_nil _ _

theorem monitor_idem (y : Sys) : monitor (monitor y) = monitor y := by
  unfold monitor
  cases he : y.world.exitAt with
  | none => simp [he]
  | some t =>
    by_cases ht : t ≤ y.world.clock
    · simp [he, ht]
    · simp [he, ht]

theorem OpenFile_svc (env : Env) (filename : Str) (y : Sys) :
    (OpenFile env filename y).1.svc = y.svc := by
  unfold OpenFile
  split <;> rfl

theorem openStdout_keeps (env : Env) (command : Cmd) (y : Sys) :
    (openStdout env command y).2.Path = command.Path ∧
      (openStdout env command y).2.Args = command.Args ∧
      (openStdout env command y).1.svc.binaryName = y.svc.binaryName ∧
      (openStdout env command y).1.svc.binaryStorageFolder = y.svc.binaryStorageFolder := by
  unfold openStdout
  by_cases h : y.svc.conf.LogStdout ≠ []
  · rw [if_pos h]
    dsimp only
    have hs := OpenFile_svc env
      (config.UseDateInFilename env.format y.world.wall y.svc.conf.LogStdout) y
    rcases hres : OpenFile env
      (config.UseDateInFilename env.format y.world.wall y.svc.conf.LogStdout) y with ⟨y1, fd⟩
    rw [hres] at hs
    simp only at hs ⊢
    cases fd <;> simp [logf, hs]
  · rw [if_neg h]
    exact ⟨rfl, rfl, rfl, rfl⟩

theorem openStderr_keeps (env : Env) (command : Cmd) (y : Sys) :
    (openStderr env command y).2.Path = command.Path ∧
      (openStderr env command y).2.Args = command.Args ∧
      (openStderr env command y).1.svc.binaryName = y.svc.binaryName ∧
      (openStderr env command y).1.svc.binaryStorageFolder = y.svc.binaryStorageFolder := by
  unfold openStderr
  by_cases h : y.svc.conf.LogStderr ≠ []
  · rw [if_pos h]
    dsimp only
    have hs := OpenFile_svc env
      (config.UseDateInFilename env.format y.world.wall y.svc.conf.LogStderr) y
    rcases hres : OpenFile env
      (config.UseDateInFilename env.format y.world.wall y.svc.conf.LogStderr) y with ⟨y1, fd⟩
    rw [hres] at hs
    simp only at hs ⊢
    cases fd <;> simp [logf, hs]
  · rw [if_neg h]
    exact ⟨rfl, rfl, rfl, rfl⟩

/-- The second half of `Start` keeps the program and the arguments of the command it is
given, stores the command, sets the running flag and leaves the artifact name alone. -/
theorem startProcess_command (env : Env) (command : Cmd) (y : Sys) :
    ∃ c, (startProcess env command y).svc.command = some c ∧ c.Path = command.Path ∧
      c.Args = command.Args ∧ IsRunning (startProcess env command y).svc = true ∧
      (startProcess env command y).svc.binaryName = y.svc.binaryName ∧
      (startProcess env command y).svc.binaryStorageFolder = y.svc.binaryStorageFolder := by
  have h1 := openStdout_keeps env
    { command with Dir := y.svc.conf.Dir,
                   Env := env.environ ++ y.svc.conf.Env.map (fun kv => kv.1 ++ ['='] ++ kv.2) } y
  have h2 := openStderr_keeps env (openStdout env
    { command with Dir := y.svc.conf.Dir,
                   Env := env.environ ++ y.svc.conf.Env.map (fun kv => kv.1 ++ ['='] ++ kv.2) } y).2
    (openStdout env
    { command with Dir := y.svc.conf.Dir,
                   Env := env.environ ++ y.svc.conf.Env.map (fun kv => kv.1 ++ ['='] ++ kv.2) } y).1
  refine ⟨_, rfl, ?_, ?_, rfl, ?_, ?_⟩
  · exact h2.1.trans h1.1
  · exact h2.2.1.trans h1.2.1
  · exact h2.2.2.1.trans h1.2.2.1
  · exact h2.2.2.2.trans h1.2.2.2

theorem copyBinary_conf (env : Env) (y y1 : Sys) (err : Option Str)
    (h : copyBinary env y = some (y1, err)) :
    y1.svc.conf = y.svc.conf ∧ y1.svc.binaryStorageFolder = y.svc.binaryStorageFolder := by
  unfold copyBinary at h
  by_cases hr : IsRunning (monitor y).svc = true
  · simp only [hr, if_true, Option.some.injEq, Prod.mk.injEq] at h
    rw [← h.1]; simp
  · simp only [hr] at h
    cases hgen : generateName (monitor y).svc.binaryStorageFolder (monitor y).svc.conf.Name
        (monitor y).world.files (monitor y).world.draws with
    | none => rw [hgen] at h; cases h
    | some r =>
      obtain ⟨binaryName, rest⟩ := r
      rw [hgen] at h
      simp only [Bool.false_eq_true, if_false] at h
      have hs := copyFile_svc env (storedAt (monitor y).svc.binaryStorageFolder binaryName)
        (monitor y).svc.conf.BinaryPath
        { svc := { (monitor y).svc with binaryName := binaryName },
          world := { (monitor y).world with draws := rest } }
      rcases hres : copyFile env (storedAt (monitor y).svc.binaryStorageFolder binaryName)
        (monitor y).svc.conf.BinaryPath
        { svc := { (monitor y).svc with binaryName := binaryName },
          world := { (monitor y).world with draws := rest } } with ⟨y2, e⟩
      rw [hres] at h hs
      simp only at hs
      cases e with
      | some e =>
        simp only [Option.some.injEq, Prod.mk.injEq] at h
        rw [← h.1, hs]; simp
      | none =>
        simp only at h
        split at h
        · simp only [Option.some.injEq, Prod.mk.injEq] at h
          rw [← h.1, hs]; simp
        · simp only [Option.some.injEq, Prod.mk.injEq] at h
          rw [← h.1]
          show y2.svc.conf = _ ∧ y2.svc.binaryStorageFolder = _
          rw [hs]; simp

/-- C7 (amended): when staging succeeds, `Start` returns with the instance running on a
command built as follows. For a non-empty template, every occurrence of the token
`\x7bbinary\x7d` is replaced by the path of the staged artifact and the result is cut at
every single space character: the fields are the program name followed by its
arguments, joining them with one space gives the replaced template back, and no field
contains a space (a field is empty where two spaces are adjacent and at a leading or
trailing space; other white space does not separate). For an empty template the program
name is the staged artifact and there is no argument. The program that runs is the
program name, except that `exec.Command` resolves a name without a path separator
through the search path. -/
theorem Start_resolves_command (env : Env) (y y1 : Sys)
    (hstop : IsRunning (monitor y).svc = false)
    (hstage : copyBinary env (starting y) = some (y1, none)) :
    ∃ y' cmd, Start env y = some y' ∧ y'.svc.command = some cmd ∧ IsRunning y'.svc = true ∧
      y'.svc.binaryName = y1.svc.binaryName ∧
      (y.svc.conf.Command ≠ [] →
        cmd.Args = Split (ReplaceAll y.svc.conf.Command binaryToken
          (storedAt y.svc.binaryStorageFolder y1.svc.binaryName)) ' ' ∧
        (∃ name, cmd.Args.head? = some name ∧ cmd.Path = commandPath env.lookPath name ∧
          (Base name ≠ name → cmd.Path = name)) ∧
        List.intercalate [' '] cmd.Args = ReplaceAll y.svc.conf.Command binaryToken
          (storedAt y.svc.binaryStorageFolder y1.svc.binaryName) ∧
        ∀ field ∈ cmd.Args, ' ' ∉ field) ∧
      (y.svc.conf.Command = [] →
        cmd.Args = [storedAt y.svc.binaryStorageFolder y1.svc.binaryName] ∧
        cmd.Path = commandPath env.lookPath
          (storedAt y.svc.binaryStorageFolder y1.svc.binaryName) ∧
        (Base (storedAt y.svc.binaryStorageFolder y1.svc.binaryName)
            ≠ storedAt y.svc.binaryStorageFolder y1.svc.binaryName →
          cmd.Path = storedAt y.svc.binaryStorageFolder y1.svc.binaryName)) := by
  have hconf := copyBinary_conf env (starting y) y1 none hstage
  have hc : y1.svc.conf = y.svc.conf := by
    rw [hconf.1]; show (monitor y).svc.conf = _; simp
  have hf : y1.svc.binaryStorageFolder = y.svc.binaryStorageFolder := by
    rw [hconf.2]; show (monitor y).svc.binaryStorageFolder = _; simp
  have hstage' : copyBinary env
      (logf (monitor y) ("Starting service ".toList ++ (monitor y).svc.conf.Name))
      = some (y1, none) := hstage
  have hsep : ∀ name, Base name ≠ name → commandPath env.lookPath name = name := by
    intro name hne
    unfold commandPath
    rw [if_neg (fun h => hne h.1)]
  -- the command that is resolved
  have hres : ∃ c, resolveCommand env y.svc.conf.Command
        (storedAt y.svc.binaryStorageFolder y1.svc.binaryName) = some c ∧
      (y.svc.conf.Command ≠ [] →
        c.Args = Split (ReplaceAll y.svc.conf.Command binaryToken
          (storedAt y.svc.binaryStorageFolder y1.svc.binaryName)) ' ' ∧
        ∃ name, c.Args.head? = some name ∧ c.Path = commandPath env.lookPath name) ∧
      (y.svc.conf.Command = [] →
        c.Args = [storedAt y.svc.binaryStorageFolder y1.svc.binaryName] ∧
        c.Path = commandPath env.lookPath
          (storedAt y.svc.binaryStorageFolder y1.svc.binaryName)) := by
    unfold resolveCommand
    by_cases ht : y.svc.conf.Command ≠ []
    · rw [if_pos ht]
      cases hs : Split (ReplaceAll y.svc.conf.Command binaryToken
          (storedAt y.svc.binaryStorageFolder y1.svc.binaryName)) ' ' with
      | nil => exact absurd hs (Split_ne_nil _ _)
      | cons name args =>
        exact ⟨Command env.lookPath name args, rfl, fun _ => ⟨rfl, name, rfl, rfl⟩,
          fun h => absurd h ht⟩
    · rw [if_neg ht]
      exact ⟨_, rfl, fun h => absurd h ht, fun _ => ⟨rfl, rfl⟩⟩
  obtain ⟨c, hc1, hc2, hc3⟩ := hres
  obtain ⟨cmd, hcmd, hpath, hargs, hrun, hname, _⟩ := startProcess_command env c y1
  have hstart : Start env y = some (startProcess env c y1) := by
    unfold Start
    simp only [hstop, Bool.false_eq_true, if_false, hstage']
    have : resolveCommand env y1.svc.conf.Command
        (Clean (y1.svc.binaryStorageFolder ++ ['/'] ++ y1.svc.binaryName)) = some c := by
      rw [hc, hf]; exact hc1
    simp only [this]
  refine ⟨startProcess env c y1, cmd, hstart, hcmd, hrun, hname, ?_, ?_⟩
  · intro ht
    obtain ⟨h1, name, h2, h3⟩ := hc2 ht
    have hsp := Split_spec (ReplaceAll y.svc.conf.Command binaryToken
      (storedAt y.svc.binaryStorageFolder y1.svc.binaryName)) ' '
    refine ⟨by rw [hargs]; exact h1, ⟨name, by rw [hargs]; exact h2, by rw [hpath]; exact h3,
      fun hne => by rw [hpath, h3]; exact hsep name hne⟩, ?_, ?_⟩
    · rw [hargs, h1]; exact hsp.1
    · rw [hargs, h1]; exact hsp.2
  · intro ht
    have h := hc3 ht
    exact ⟨by rw [hargs]; exact h.1, by rw [hpath]; exact h.2,
      fun hne => by rw [hpath, h.2]; exact hsep _ hne⟩

/-- Witness of C7 (amended): the sample service with the template `env \x7bbinary\x7d`;
its first draw collides; the program name `env` is resolved to `/usr/bin/env`. -/
theorem Start_resolves_command_witness :
    ∃ y' cmd, Start (sampleEnv politeProc) sampleSysEnv = some y' ∧ y'.svc.command = some cmd ∧
      IsRunning y'.svc = true ∧ y'.svc.binaryName = "api-0000002b".toList ∧
      cmd.Args = ["env".toList, "/s/api-0000002b".toList] ∧
      cmd.Path = "/usr/bin/env".toList := by
  obtain ⟨y', cmd, h1, h2, h3, h4, h5, _⟩ :=
    Start_resolves_command (sampleEnv politeProc) sampleSysEnv
      ((copyBinary (sampleEnv politeProc) (starting sampleSysEnv)).getD (sampleSysEnv, none)).1
      (by decide) (by decide)
  obtain ⟨h6, ⟨name, h7, h8, _⟩, _⟩ := h5 (by decide)
  have hargs : cmd.Args = ["env".toList, "/s/api-0000002b".toList] := by
    rw [h6]; decide
  refine ⟨y', cmd, h1, h2, h3, ?_, hargs, ?_⟩
  · rw [h4]; decide
  · rw [hargs] at h7
    have hn : name = "env".toList := (Option.some.inj h7).symm
    rw [h8, hn]
    decide

/-- Counterexample to C7 as stated: with the template `\x7bbinary\x7d  -v` (two spaces)
the command that `Start` launches has an empty argument before `-v`. -/
theorem Start_command_has_empty_argument :
    ((Start (sampleEnv politeProc) sampleSys).bind (fun y => y.svc.command)).map (fun c => c.Args)
      = some ["/s/api-0000002b".toList, [], "-v".toList] := by
  decide

/-! ## Properties of `Stop` -/

theorem monitor_of_late (y : Sys) (h : ∀ t, y.world.exitAt = some t → y.world.clock < t) :
    monitor y = y := by
  unfold monitor
  cases he : y.world.exitAt with
  | none => rfl
  | some t =>
    have := h t he
    simp only
    rw [if_neg (by omega)]

theorem monitor_of_due (y : Sys) (t : Nat) (he : y.world.exitAt = some t)
    (h : t ≤ y.world.clock) : IsRunning (monitor y).svc = false := by
  unfold monitor
  simp only [he, h, if_true]
  rfl

theorem slept_zero (y : Sys) : slept 0 y = y := by
  cases y with
  | mk svc world =>
    cases world
    simp [slept, sleeps]

theorem slept_succ (n : Nat) (y : Sys) : slept (n + 1) y = slept n (Sleep 100 y) := by
  cases y with
  | mk svc world =>
    cases world
    simp only [slept, Sleep, emit, sleeps, Sys.mk.injEq, World.mk.injEq, true_and]
    refine ⟨by omega, by simp⟩

/-- While the flag stays set, the polling loop of `Stop` sleeps `n` times. -/
theorem waitForExit_stays (n : Nat) (y : Sys) (hflag : IsRunning y.svc = true)
    (hlate : ∀ t, y.world.exitAt = some t → y.world.clock + 100 * n < t) :
    waitForExit n y = slept n y := by
  induction n generalizing y with
  | zero => rw [slept_zero]; rfl
  | succ n ih =>
    have hm : monitor y = y := monitor_of_late y (fun t ht => by have := hlate t ht; omega)
    unfold waitForExit
    simp only [hm, hflag, Bool.not_true, Bool.false_eq_true, if_false]
    rw [slept_succ]
    apply ih
    · exact hflag
    · intro t ht
      have := hlate t ht
      show y.world.clock + 100 + 100 * n < t
      omega

/-- When the flag is cleared at `t`, within the `n` rounds, the polling loop of `Stop`
sleeps until `t` is reached and the flag is then seen cleared. -/
theorem waitForExit_exits (n : Nat) (y : Sys) (hflag : IsRunning y.svc = true) (t : Nat)
    (he : y.world.exitAt = some t) (hle : t ≤ y.world.clock + 100 * n) :
    monitor (waitForExit n y) = monitor (slept (rounds y.world.clock t) y) := by
  induction n generalizing y with
  | zero =>
    have : rounds y.world.clock t = 0 := by unfold rounds; omega
    rw [this, slept_zero]; rfl
  | succ n ih =>
    unfold waitForExit
    by_cases hdue : t ≤ y.world.clock
    · have hoff := monitor_of_due y t he hdue
      have : rounds y.world.clock t = 0 := by unfold rounds; omega
      simp only [hoff, Bool.not_false, if_true]
      rw [this, slept_zero, monitor_idem]
    · have hm : monitor y = y := monitor_of_late y (fun u hu => by
        rw [he] at hu; cases hu; omega)
      have hr : rounds y.world.clock t = rounds (y.world.clock + 100) t + 1 := by
        unfold rounds; omega
      simp only [hm, hflag, Bool.not_true, Bool.false_eq_true, if_false]
      rw [hr, slept_succ]
      exact ih (Sleep 100 y) hflag he (by show t ≤ y.world.clock + 100 + 100 * n; omega)

theorem closeLogFiles_effects (y : Sys) :
    (closeLogFiles y).world.effects = y.world.effects ++ closes y.world.clock y.svc := by
  unfold closeLogFiles closes closeFile
  cases h1 : y.svc.logStdout <;> cases h2 : y.svc.logStderr <;> simp [emit, h1, h2]

theorem sendSignal_term_ok (y : Sys) (h : y.world.proc.termErr = false) :
    sendSignal Signal.SIGTERM (logf y ("Stopping service ".toList ++ y.svc.conf.Name))
      = (signalled y, false) := by
  unfold sendSignal signalled
  simp only [emit, logf, h, Bool.false_eq_true, if_false, exitAfterTerm]

theorem Stop_of_running (y : Sys) (hrun : IsRunning (monitor y).svc = true)
    (hterm : y.world.proc.termErr = false) :
    Stop y =
      (let y := monitor (waitForExit 30 (signalled y))
       if IsRunning y.svc then
         let y := logf y ("Service ".toList ++ y.svc.conf.Name
           ++ " did not stop, sending SIGKILL".toList)
         match sendSignal Signal.SIGKILL y with
         | (y, true) => logf y ("Error killing service ".toList ++ y.svc.conf.Name)
         | (y, false) => closeLogFiles y
       else closeLogFiles y) := by
  have hm := monitor_of_running y hrun
  rw [hm] at hrun
  unfold Stop
  simp only [hm, hrun, Bool.not_true, Bool.false_eq_true, if_false, sendSignal_term_ok y hterm]

theorem signalled_facts (y : Sys) :
    (signalled y).svc = y.svc ∧ (signalled y).world.clock = y.world.clock ∧
      (signalled y).world.exitAt = exitAfterTerm y ∧
      (signalled y).world.effects
        = y.world.effects ++ [(y.world.clock, Effect.signal Signal.SIGTERM)] ∧
      (signalled y).world.proc = y.world.proc :=
  ⟨rfl, rfl, rfl, rfl, rfl⟩

theorem slept_facts (n : Nat) (y : Sys) :
    (slept n y).svc = y.svc ∧ (slept n y).world.clock = y.world.clock + 100 * n ∧
      (slept n y).world.exitAt = y.world.exitAt ∧
      (slept n y).world.effects = y.world.effects ++ sleeps y.world.clock n ∧
      (slept n y).world.proc = y.world.proc :=
  ⟨rfl, rfl, rfl, rfl, rfl⟩

theorem monitor_facts (y : Sys) :
    (monitor y).world.clock = y.world.clock ∧ (monitor y).world.effects = y.world.effects ∧
      (monitor y).svc.logStdout = y.svc.logStdout ∧
      (monitor y).svc.logStderr = y.svc.logStderr ∧
      (monitor y).world.openFiles = y.world.openFiles := by
  unfold monitor
  cases he : y.world.exitAt with
  | none => exact ⟨rfl, rfl, rfl, rfl, rfl⟩
  | some t =>
    by_cases ht : t ≤ y.world.clock
    · simp [ht, setRunning]
    · simp [ht]

theorem sendSignal_kill_facts (y : Sys) :
    (sendSignal Signal.SIGKILL y).2 = y.world.proc.killErr ∧
      (sendSignal Signal.SIGKILL y).1.svc = y.svc ∧
      (sendSignal Signal.SIGKILL y).1.world.clock = y.world.clock ∧
      (sendSignal Signal.SIGKILL y).1.world.effects
        = y.world.effects ++ [(y.world.clock, Effect.signal Signal.SIGKILL)] ∧
      (sendSignal Signal.SIGKILL y).1.world.openFiles = y.world.openFiles := by
  unfold sendSignal
  cases hk : y.world.proc.killErr
  · have : (emit y (Effect.signal Signal.SIGKILL)).world.proc.killErr = false := hk
    simp only [this, Bool.false_eq_true, if_false]
    exact ⟨trivial, rfl, rfl, rfl, rfl⟩
  · have : (emit y (Effect.signal Signal.SIGKILL)).world.proc.killErr = true := hk
    simp only [this, if_true]
    exact ⟨trivial, rfl, rfl, rfl, rfl⟩

/-- Escalation: the flag stays set through the grace window. -/
theorem Stop_escalates (y : Sys) (hrun : IsRunning (monitor y).svc = true)
    (hterm : y.world.proc.termErr = false)
    (hlate : ∀ t, exitAfterTerm y = some t → y.world.clock + 3000 < t) :
    (Stop y).world.effects = y.world.effects ++
      (y.world.clock, Effect.signal Signal.SIGTERM) :: sleeps y.world.clock 30 ++
      (y.world.clock + 3000, Effect.signal Signal.SIGKILL) ::
        (if y.world.proc.killErr then [] else closes (y.world.clock + 3000) y.svc) := by
  have hm := monitor_of_running y hrun
  have hflag : IsRunning y.svc = true := by rw [hm] at hrun; exact hrun
  rw [Stop_of_running y hrun hterm]
  have hw : waitForExit 30 (signalled y) = slept 30 (signalled y) :=
    waitForExit_stays 30 (signalled y) hflag (fun t ht => hlate t ht)
  have hm2 : monitor (slept 30 (signalled y)) = slept 30 (signalled y) :=
    monitor_of_late _ (fun t ht => by
      have := hlate t ht
      show y.world.clock + 100 * 30 < t
      omega)
  simp only [hw, hm2]
  have hflag2 : IsRunning (slept 30 (signalled y)).svc = true := hflag
  simp only [hflag2, if_true]
  obtain ⟨f1, f2, f3, f4, _⟩ := sendSignal_kill_facts (logf (slept 30 (signalled y))
    ("Service ".toList ++ (slept 30 (signalled y)).svc.conf.Name
      ++ " did not stop, sending SIGKILL".toList))
  rcases hres : sendSignal Signal.SIGKILL (logf (slept 30 (signalled y))
    ("Service ".toList ++ (slept 30 (signalled y)).svc.conf.Name
      ++ " did not stop, sending SIGKILL".toList)) with ⟨y3, failed⟩
  rw [hres] at f1 f2 f3 f4
  simp only at f1 f2 f3 f4
  have hkerr : failed = y.world.proc.killErr := f1
  have hsvc : y3.svc = y.svc := f2
  have hclock : y3.world.clock = y.world.clock + 3000 := f3
  have heff : y3.world.effects = y.world.effects ++
      (y.world.clock, Effect.signal Signal.SIGTERM) :: sleeps y.world.clock 30 ++
      [(y.world.clock + 3000, Effect.signal Signal.SIGKILL)] := by
    rw [f4]
    simp [logf, slept, signalled, emit]
  cases failed with
  | true =>
    rw [← hkerr]
    simp only [if_true]
    show y3.world.effects = _
    rw [heff]
  | false =>
    rw [← hkerr]
    simp only [Bool.false_eq_true, if_false]
    rw [closeLogFiles_effects, heff, hclock, hsvc]
    simp

/-- No escalation: the flag is cleared within the grace window. -/
theorem Stop_without_kill (y : Sys) (hrun : IsRunning (monitor y).svc = true)
    (hterm : y.world.proc.termErr = false) (t : Nat)
    (hexit : exitAfterTerm y = some t) (hin : t ≤ y.world.clock + 3000) :
    (Stop y).world.effects = y.world.effects ++
      (y.world.clock, Effect.signal Signal.SIGTERM) ::
        sleeps y.world.clock (rounds y.world.clock t) ++
      closes (y.world.clock + 100 * rounds y.world.clock t) y.svc := by
  have hm := monitor_of_running y hrun
  have hflag : IsRunning y.svc = true := by rw [hm] at hrun; exact hrun
  rw [Stop_of_running y hrun hterm]
  have hw := waitForExit_exits 30 (signalled y) hflag t hexit (by
    show t ≤ y.world.clock + 100 * 30
    omega)
  have hoff : IsRunning (monitor (slept (rounds y.world.clock t) (signalled y))).svc = false :=
    monitor_of_due _ t hexit (by
      show t ≤ y.world.clock + 100 * rounds y.world.clock t
      unfold rounds
      omega)
  have hclock : (signalled y).world.clock = y.world.clock := rfl
  simp only [hw, hclock, hoff, Bool.false_eq_true, if_false]
  rw [closeLogFiles_effects]
  obtain ⟨h1, h2, h3, h4, _⟩ := monitor_facts (slept (rounds y.world.clock t) (signalled y))
  rw [h2, h1]
  have hc : closes (slept (rounds y.world.clock t) (signalled y)).world.clock
      (monitor (slept (rounds y.world.clock t) (signalled y))).svc
      = closes (y.world.clock + 100 * rounds y.world.clock t) y.svc := by
    unfold closes
    rw [h3, h4]
    rfl
  rw [hc]
  simp [slept, signalled, logf, emit]

theorem monitor_withKillDelay (k : Int) (y : Sys) :
    monitor (withKillDelay k y) = withKillDelay k (monitor y) := by
  unfold monitor withKillDelay
  cases he : y.world.exitAt with
  | none => simp [he]
  | some t =>
    by_cases ht : t ≤ y.world.clock
    · simp [he, ht, setRunning]
    · simp [he, ht]

theorem sendSignal_withKillDelay (k : Int) (sig : Signal) (y : Sys) :
    sendSignal sig (withKillDelay k y)
      = (withKillDelay k (sendSignal sig y).1, (sendSignal sig y).2) := by
  unfold sendSignal
  cases sig with
  | SIGTERM =>
    cases h : y.world.proc.termErr
    · have h1 : (emit (withKillDelay k y) (Effect.signal Signal.SIGTERM)).world.proc.termErr
          = false := h
      have h2 : (emit y (Effect.signal Signal.SIGTERM)).world.proc.termErr = false := h
      simp only [h1, h2, Bool.false_eq_true, if_false]
      rfl
    · have h1 : (emit (withKillDelay k y) (Effect.signal Signal.SIGTERM)).world.proc.termErr
          = true := h
      have h2 : (emit y (Effect.signal Signal.SIGTERM)).world.proc.termErr = true := h
      simp only [h1, h2, if_true]
      rfl
  | SIGKILL =>
    cases h : y.world.proc.killErr
    · have h1 : (emit (withKillDelay k y) (Effect.signal Signal.SIGKILL)).world.proc.killErr
          = false := h
      have h2 : (emit y (Effect.signal Signal.SIGKILL)).world.proc.killErr = false := h
      simp only [h1, h2, Bool.false_eq_true, if_false]
      rfl
    · have h1 : (emit (withKillDelay k y) (Effect.signal Signal.SIGKILL)).world.proc.killErr
          = true := h
      have h2 : (emit y (Effect.signal Signal.SIGKILL)).world.proc.killErr = true := h
      simp only [h1, h2, if_true]
      rfl

theorem waitForExit_withKillDelay (k : Int) (n : Nat) (y : Sys) :
    waitForExit n (withKillDelay k y) = withKillDelay k (waitForExit n y) := by
  induction n generalizing y with
  | zero => rfl
  | succ n ih =>
    unfold waitForExit
    simp only [monitor_withKillDelay]
    cases hr : IsRunning (monitor y).svc
    · have : IsRunning (withKillDelay k (monitor y)).svc = false := hr
      simp only [this, Bool.not_false, if_true]
    · have : IsRunning (withKillDelay k (monitor y)).svc = true := hr
      simp only [this, Bool.not_true, Bool.false_eq_true, if_false]
      exact ih (Sleep 100 (monitor y))

theorem closeLogFiles_withKillDelay (k : Int) (y : Sys) :
    closeLogFiles (withKillDelay k y) = withKillDelay k (closeLogFiles y) := by
  unfold closeLogFiles closeFile
  cases h1 : y.svc.logStdout <;> cases h2 : y.svc.logStderr <;>
    simp [withKillDelay, emit, h1, h2]

/-- The field `killDelay` is carried through `Stop` and never read. -/
theorem Stop_withKillDelay (k : Int) (y : Sys) :
    Stop (withKillDelay k y) = withKillDelay k (Stop y) := by
  unfold Stop
  simp only [monitor_withKillDelay]
  generalize monitor y = ym
  cases hr : IsRunning ym.svc
  · have : IsRunning (withKillDelay k ym).svc = false := hr
    simp only [this, Bool.not_false, if_true]
    rfl
  · have : IsRunning (withKillDelay k ym).svc = true := hr
    simp only [this, Bool.not_true, Bool.false_eq_true, if_false]
    have h1 : logf (withKillDelay k ym) ("Stopping service ".toList ++ (withKillDelay k ym).svc.conf.Name)
        = withKillDelay k (logf ym ("Stopping service ".toList ++ ym.svc.conf.Name)) := rfl
    rw [h1, sendSignal_withKillDelay]
    rcases sendSignal Signal.SIGTERM (logf ym ("Stopping service ".toList ++ ym.svc.conf.Name))
      with ⟨y2, failed⟩
    cases failed with
    | true => rfl
    | false =>
      simp only
      rw [waitForExit_withKillDelay, monitor_withKillDelay]
      generalize monitor (waitForExit 30 y2) = y3
      cases hr3 : IsRunning y3.svc
      · have : IsRunning (withKillDelay k y3).svc = false := hr3
        simp only [this, Bool.false_eq_true, if_false]
        exact closeLogFiles_withKillDelay k y3
      · have : IsRunning (withKillDelay k y3).svc = true := hr3
        simp only [this, if_true]
        have h2 : logf (withKillDelay k y3) ("Service ".toList ++ (withKillDelay k y3).svc.conf.Name
              ++ " did not stop, sending SIGKILL".toList)
            = withKillDelay k (logf y3 ("Service ".toList ++ y3.svc.conf.Name
              ++ " did not stop, sending SIGKILL".toList)) := rfl
        rw [h2, sendSignal_withKillDelay]
        rcases sendSignal Signal.SIGKILL (logf y3 ("Service ".toList ++ y3.svc.conf.Name
              ++ " did not stop, sending SIGKILL".toList)) with ⟨y4, failed⟩
        cases failed with
        | true => rfl
        | false => exact closeLogFiles_withKillDelay k y4

/-- C3: escalation timing of `Stop`. For a running instance to whose process SIGTERM
is delivered at the instant t0: when the running flag stays set through the grace window
(the monitor clears it later than t0 + 3000 ms, or never), `Stop` sends SIGTERM at t0,
sleeps 30 times 100 ms and sends SIGKILL at t0 + 3000 ms, and does nothing else before
closing the log files; when the flag is cleared at an instant t within the window, `Stop`
sends SIGTERM, sleeps until t is reached and sends no SIGKILL; and whatever the value of
the field `killDelay`, the world after `Stop` is the same. -/
theorem Stop_escalation_timing (y : Sys) (hrun : IsRunning (monitor y).svc = true)
    (hterm : y.world.proc.termErr = false) :
    ((∀ t, exitAfterTerm y = some t → y.world.clock + 3000 < t) →
      (Stop y).world.effects = y.world.effects ++
        (y.world.clock, Effect.signal Signal.SIGTERM) :: sleeps y.world.clock 30 ++
        (y.world.clock + 3000, Effect.signal Signal.SIGKILL) ::
          (if y.world.proc.killErr then [] else closes (y.world.clock + 3000) y.svc)) ∧
    (∀ t, exitAfterTerm y = some t → t ≤ y.world.clock + 3000 →
      (Stop y).world.effects = y.world.effects ++
        (y.world.clock, Effect.signal Signal.SIGTERM) ::
          sleeps y.world.clock (rounds y.world.clock t) ++
        closes (y.world.clock + 100 * rounds y.world.clock t) y.svc) ∧
    (∀ k, (Stop (withKillDelay k y)).world = (Stop y).world) :=
  ⟨Stop_escalates y hrun hterm, Stop_without_kill y hrun hterm,
    fun k => by rw [Stop_withKillDelay]; rfl⟩

/-- Witness of C3: the sample service with a process that ignores SIGTERM; SIGKILL is
sent 3000 ms after SIGTERM. -/
theorem Stop_escalation_timing_witness :
    (Stop (sampleRunning stubbornProc)).world.effects
      = (sampleRunning stubbornProc).world.effects ++
        (0, Effect.signal Signal.SIGTERM) :: sleeps 0 30 ++
        (3000, Effect.signal Signal.SIGKILL) :: closes 3000 (sampleRunning stubbornProc).svc :=
  (Stop_escalation_timing (sampleRunning stubbornProc) (by decide) (by decide)).1 (by decide)

/-- C2 (code bug), evaluated: the sample service is started with its standard output
logged to a file, handle 3. When the process exits after SIGTERM, `Stop` closes the
handle. When delivering SIGTERM fails, and when the process ignores SIGTERM and
delivering SIGKILL fails, `Stop` returns early and the handle is still open. -/
theorem Stop_leaves_log_file_open_on_signal_error :
    (sampleRunning unreachableProc).svc.logStdout = some 3 ∧
      (Stop (sampleRunning politeProc)).world.openFiles = [] ∧
      (Stop (sampleRunning unreachableProc)).world.openFiles = [3] ∧
      (Stop (sampleRunning unkillableProc)).world.openFiles = [3] := by
  decide

/-- Witness of C4: `Start` on the sample service while it runs. -/
theorem Start_on_running_is_noop_witness :
    ∃ y', Start (sampleEnv stubbornProc) (sampleRunning stubbornProc) = some y' ∧
      y'.svc = (sampleRunning stubbornProc).svc ∧
      y'.world.effects = (sampleRunning stubbornProc).world.effects := by
  obtain ⟨y', h1, h2, _, h3, _⟩ := Start_on_running_is_noop (sampleEnv stubbornProc)
    (sampleRunning stubbornProc) (by decide)
  exact ⟨y', h1, h2, h3⟩

/-- Witness of C5: in the sample world the draw 42 collides and the draw 43 is free. -/
theorem copyBinary_takes_first_free_draw_witness :
    ∃ y' err, copyBinary (sampleEnv politeProc) sampleSys = some (y', err) ∧
      y'.svc.binaryName = "api-0000002b".toList ∧ y'.world.draws = [44] := by
  obtain ⟨y', err, h1, h2, _, _, h3, _⟩ := copyBinary_takes_first_free_draw
    (sampleEnv politeProc) sampleSys [42] 43 [44] (by decide) (by decide) (by decide) (by decide)
  exact ⟨y', err, h1, by rw [h2]; decide, h3⟩

/-! ## Properties of `UseDateInFilename` -/

/-- A match of `dateParamRegex` cuts the string into the text before the token, which
has no opening brace, the token, whose body has no closing brace, and the rest. -/
theorem findDateParam_spec (s pre body post : Str)
    (h : findDateParam s = some (pre, body, post)) :
    s = pre ++ '\x7b' :: body ++ '\x7d' :: post ∧ '\x7b' ∉ pre ∧ '\x7d' ∉ body := by
  unfold findDateParam at h
  cases h1 : s.dropWhile (· ≠ '\x7b') with
  | nil => rw [h1] at h; cases h
  | cons a r =>
    rw [h1] at h
    simp only at h
    cases h2 : r.dropWhile (· ≠ '\x7d') with
    | nil => rw [h2] at h; cases h
    | cons b post' =>
      rw [h2] at h
      simp only [Option.some.injEq, Prod.mk.injEq] at h
      obtain ⟨hpre, hbody, hpost⟩ := h
      have ha : a = '\x7b' := by
        have := List.head_dropWhile_not (· ≠ '\x7b') s (by rw [h1]; simp)
        simp only [h1, List.head_cons] at this
        simpa using this
      have hb : b = '\x7d' := by
        have := List.head_dropWhile_not (· ≠ '\x7d') r (by rw [h2]; simp)
        simp only [h2, List.head_cons] at this
        simpa using this
      have hs : s = s.takeWhile (· ≠ '\x7b') ++ s.dropWhile (· ≠ '\x7b') :=
        (List.takeWhile_append_dropWhile _ s).symm
      have hr : r = r.takeWhile (· ≠ '\x7d') ++ r.dropWhile (· ≠ '\x7d') :=
        (List.takeWhile_append_dropWhile _ r).symm
      refine ⟨?_, ?_, ?_⟩
      · rw [h1, ha] at hs
        rw [h2, hb] at hr
        rw [← hpre, ← hbody, ← hpost]
        conv_lhs => rw [hs]
        conv_lhs => rw [hr]
        simp
      · rw [← hpre]
        intro hm
        have := List.mem_takeWhile_imp hm
        simp at this
      · rw [← hbody]
        intro hm
        have := List.mem_takeWhile_imp hm
        simp at this

/-- Replacing the first occurrence of `old`: it is the one that follows a prefix in which
the first character of `old` does not occur. -/
theorem ReplaceFirst_after (c : Char) (old' new acc post : Str) (hacc : c ∉ acc) :
    ReplaceFirst (c :: old') new (acc ++ (c :: old') ++ post) = acc ++ new ++ post := by
  induction acc with
  | nil =>
    have hpre : startsWith (c :: (old' ++ post)) (c :: old') = true := by
      unfold startsWith
      simp [List.isPrefixOf]
    show ReplaceFirst (c :: old') new (c :: (old' ++ post)) = new ++ post
    rw [ReplaceFirst, if_pos hpre]
    have hd : (c :: (old' ++ post)).drop (c :: old').length = post := by
      simp
    rw [hd]
  | cons x acc ih =>
    have hx : x ≠ c := fun h => hacc (by rw [h]; exact List.mem_cons_self _ _)
    have hpre : ¬ startsWith (x :: (acc ++ (c :: old') ++ post)) (c :: old') = true := by
      unfold startsWith
      simp [List.isPrefixOf, Ne.symm hx]
    show ReplaceFirst (c :: old') new (x :: (acc ++ (c :: old') ++ post))
      = x :: (acc ++ new ++ post)
    rw [ReplaceFirst, if_neg hpre, ih (fun h => hacc (List.mem_cons_of_mem _ h))]

/-- The loop of `UseDateInFilename` replaces each token by its own formatted body when
no formatted body contains an opening brace. -/
theorem foldl_ReplaceFirst_eq_expand (f : Str → Str) (fuel : Nat) (s acc : Str)
    (hacc : '\x7b' ∉ acc)
    (hf : ∀ r ∈ findAllDateParams fuel s, '\x7b' ∉ f r.2) :
    (findAllDateParams fuel s).foldl (fun base result => ReplaceFirst result.1 (f result.2) base)
        (acc ++ s)
      = acc ++ expandTokens f fuel s := by
  induction fuel generalizing s acc with
  | zero => rfl
  | succ fuel ih =>
    unfold findAllDateParams expandTokens
    cases hfind : findDateParam s with
    | none => rfl
    | some m =>
      obtain ⟨pre, body, post⟩ := m
      obtain ⟨hs, hpre, _⟩ := findDateParam_spec s pre body post hfind
      have hfb : '\x7b' ∉ f body := by
        apply hf ('\x7b' :: body ++ ['\x7d'], body)
        unfold findAllDateParams
        rw [hfind]
        exact List.mem_cons_self _ _
      have hf' : ∀ r ∈ findAllDateParams fuel post, '\x7b' ∉ f r.2 := by
        intro r hr
        apply hf r
        unfold findAllDateParams
        rw [hfind]
        exact List.mem_cons_of_mem _ hr
      simp only [List.foldl_cons]
      have hstep : ReplaceFirst ('\x7b' :: body ++ ['\x7d']) (f body) (acc ++ s)
          = (acc ++ pre ++ f body) ++ post := by
        have := ReplaceFirst_after '\x7b' (body ++ ['\x7d']) (f body) (acc ++ pre) post
          (by simp [hacc, hpre])
        rw [← this, hs]
        simp
      rw [hstep, ih post (acc ++ pre ++ f body) (by simp [hacc, hpre, hfb]) hf']
      simp

/-- A character of the expansion comes from the text outside the tokens or from a
formatted body. -/
theorem mem_expandTokens (f : Str → Str) (fuel : Nat) (s : Str) (ch : Char)
    (h : ch ∈ expandTokens f fuel s) :
    ch ∈ expandTokens (fun _ => []) fuel s ∨ ∃ r ∈ findAllDateParams fuel s, ch ∈ f r.2 := by
  induction fuel generalizing s with
  | zero => exact Or.inl h
  | succ fuel ih =>
    unfold expandTokens at h ⊢
    unfold findAllDateParams
    cases hfind : findDateParam s with
    | none => rw [hfind] at h; exact Or.inl h
    | some m =>
      obtain ⟨pre, body, post⟩ := m
      rw [hfind] at h
      simp only [List.mem_append] at h ⊢
      rcases h with (h | h) | h
      · exact Or.inl (Or.inl (Or.inl h))
      · exact Or.inr ⟨_, List.mem_cons_self _ _, h⟩
      · rcases ih post h with h' | ⟨r, hr, hch⟩
        · exact Or.inl (Or.inr h')
        · exact Or.inr ⟨r, List.mem_cons_of_mem _ hr, hch⟩

/-- Two expansions of the same string differ when some token is formatted differently
and every token is formatted to the same length. -/
theorem expandTokens_ne (f g : Str → Str) (fuel : Nat) (s : Str)
    (hdiff : ∃ r ∈ findAllDateParams fuel s, f r.2 ≠ g r.2)
    (hlen : ∀ r ∈ findAllDateParams fuel s, (f r.2).length = (g r.2).length) :
    expandTokens f fuel s ≠ expandTokens g fuel s := by
  induction fuel generalizing s with
  | zero =>
    obtain ⟨r, hr, _⟩ := hdiff
    simp [findAllDateParams] at hr
  | succ fuel ih =>
    unfold findAllDateParams at hdiff hlen
    unfold expandTokens
    cases hfind : findDateParam s with
    | none =>
      rw [hfind] at hdiff
      obtain ⟨r, hr, _⟩ := hdiff
      simp at hr
    | some m =>
      obtain ⟨pre, body, post⟩ := m
      rw [hfind] at hdiff hlen
      simp only
      have hl : (f body).length = (g body).length :=
        hlen ('\x7b' :: body ++ ['\x7d'], body) (List.mem_cons_self _ _)
      intro heq
      rw [List.append_assoc, List.append_assoc] at heq
      have h1 := List.append_cancel_left heq
      have h2 := List.append_inj h1 hl
      obtain ⟨r, hr, hne⟩ := hdiff
      rcases List.mem_cons.mp hr with hr | hr
      · rw [hr] at hne
        exact hne h2.1
      · exact ih post ⟨r, hr, hne⟩ (fun q hq => hlen q (List.mem_cons_of_mem _ hq)) h2.2

/-- The fuel of `FindAllStringSubmatch` is enough to find every token: more fuel finds
the same matches. -/
theorem findAllDateParams_enough (fuel fuel' : Nat) (s : Str)
    (h : s.length ≤ fuel) (h' : s.length ≤ fuel') :
    findAllDateParams fuel s = findAllDateParams fuel' s := by
  induction fuel generalizing fuel' s with
  | zero =>
    have hs : s = [] := List.length_eq_zero.mp (by omega)
    subst hs
    cases fuel' <;> rfl
  | succ fuel ih =>
    cases fuel' with
    | zero =>
      have hs : s = [] := List.length_eq_zero.mp (by omega)
      subst hs
      rfl
    | succ fuel' =>
      unfold findAllDateParams
      cases hfind : findDateParam s with
      | none => rfl
      | some m =>
        obtain ⟨pre, body, post⟩ := m
        obtain ⟨hs, _, _⟩ := findDateParam_spec s pre body post hfind
        have hlen : post.length + 2 ≤ s.length := by
          rw [hs]
          simp only [List.length_append, List.length_cons]
          omega
        simp only
        rw [ih fuel' post (by omega) (by omega)]

/-- C6 (amended): date-token expansion. For a template whose base name contains a token
and two instants at which no formatted token body contains an opening brace,
`UseDateInFilename` returns the directory, a slash and the base name in which each token
is replaced, independently of the others, by the instant formatted with the body of that
token. The expanded base name contains no brace when, in addition, the text outside the
tokens contains none and no formatted body contains a closing brace. The two file names
are distinct when some token is formatted differently at the two instants and every
token is formatted to the same length at both. -/
theorem UseDateInFilename_expands_tokens (format : Time → Str → Str) (filename : Str)
    (t1 t2 : Time)
    (htoken : FindAllStringSubmatch (Base filename) ≠ [])
    (hopen1 : ∀ r ∈ FindAllStringSubmatch (Base filename), '\x7b' ∉ format t1 r.2)
    (hopen2 : ∀ r ∈ FindAllStringSubmatch (Base filename), '\x7b' ∉ format t2 r.2) :
    (config.UseDateInFilename format t1 filename = Dir filename ++ ['/'] ++
        expandTokens (format t1) (Base filename).length (Base filename) ∧
      config.UseDateInFilename format t2 filename = Dir filename ++ ['/'] ++
        expandTokens (format t2) (Base filename).length (Base filename)) ∧
    ((∀ ch ∈ outsideTokens (Base filename), ch ≠ '\x7b' ∧ ch ≠ '\x7d') →
      (∀ r ∈ FindAllStringSubmatch (Base filename),
        '\x7d' ∉ format t1 r.2 ∧ '\x7d' ∉ format t2 r.2) →
      (∀ ch ∈ expandTokens (format t1) (Base filename).length (Base filename),
        ch ≠ '\x7b' ∧ ch ≠ '\x7d') ∧
      (∀ ch ∈ expandTokens (format t2) (Base filename).length (Base filename),
        ch ≠ '\x7b' ∧ ch ≠ '\x7d')) ∧
    ((∃ r ∈ FindAllStringSubmatch (Base filename), format t1 r.2 ≠ format t2 r.2) →
      (∀ r ∈ FindAllStringSubmatch (Base filename),
        (format t1 r.2).length = (format t2 r.2).length) →
      config.UseDateInFilename format t1 filename
        ≠ config.UseDateInFilename format t2 filename) := by
  have hname : ∀ now, (∀ r ∈ FindAllStringSubmatch (Base filename), '\x7b' ∉ format now r.2) →
      config.UseDateInFilename format now filename = Dir filename ++ ['/'] ++
        expandTokens (format now) (Base filename).length (Base filename) := by
    intro now hopen
    unfold config.UseDateInFilename
    simp only [htoken, if_false]
    have := foldl_ReplaceFirst_eq_expand (format now) (Base filename).length (Base filename) []
      (by simp) hopen
    simp only [List.nil_append] at this
    unfold FindAllStringSubmatch
    rw [this]
  have hclean : ∀ now, (∀ ch ∈ outsideTokens (Base filename), ch ≠ '\x7b' ∧ ch ≠ '\x7d') →
      (∀ r ∈ FindAllStringSubmatch (Base filename),
        '\x7b' ∉ format now r.2 ∧ '\x7d' ∉ format now r.2) →
      ∀ ch ∈ expandTokens (format now) (Base filename).length (Base filename),
        ch ≠ '\x7b' ∧ ch ≠ '\x7d' := by
    intro now hout hbody ch hch
    rcases mem_expandTokens (format now) _ _ ch hch with h | ⟨r, hr, h⟩
    · exact hout ch h
    · have := hbody r hr
      exact ⟨fun he => this.1 (he ▸ h), fun he => this.2 (he ▸ h)⟩
  refine ⟨⟨hname t1 hopen1, hname t2 hopen2⟩, ?_, ?_⟩
  · intro hout hclose
    exact ⟨hclean t1 hout (fun r hr => ⟨hopen1 r hr, (hclose r hr).1⟩),
      hclean t2 hout (fun r hr => ⟨hopen2 r hr, (hclose r hr).2⟩)⟩
  · intro hdiff hlen heq
    rw [hname t1 hopen1, hname t2 hopen2] at heq
    exact expandTokens_ne (format t1) (format t2) _ _ hdiff hlen (List.append_cancel_left heq)

/-- Witness of C6 (amended): a daily log file on 5 and 6 March 2024. -/
theorem UseDateInFilename_expands_tokens_witness :
    config.UseDateInFilename sampleFormat ⟨2024, 3, 5, 10, 30, 0⟩
        "/var/log/api-{2006-01-02}.log".toList
      ≠ config.UseDateInFilename sampleFormat ⟨2024, 3, 6, 10, 30, 0⟩
        "/var/log/api-{2006-01-02}.log".toList :=
  (UseDateInFilename_expands_tokens sampleFormat "/var/log/api-{2006-01-02}.log".toList
    ⟨2024, 3, 5, 10, 30, 0⟩ ⟨2024, 3, 6, 10, 30, 0⟩ (by decide) (by decide) (by decide)).2.2
    (by decide) (by decide)

/-- Counterexample to C6 as stated. A monthly log file has the same name on 5 and
6 March 2024; a base name with a closing brace before its token keeps the brace; and
with a token whose body starts with an opening brace the second token is not the one
that is replaced. -/
theorem UseDateInFilename_same_name_and_brace_left :
    (config.UseDateInFilename sampleFormat ⟨2024, 3, 5, 10, 30, 0⟩
        "/var/log/api-{2006-01}.log".toList = "/var/log/api-2024-03.log".toList ∧
      config.UseDateInFilename sampleFormat ⟨2024, 3, 6, 10, 30, 0⟩
        "/var/log/api-{2006-01}.log".toList = "/var/log/api-2024-03.log".toList) ∧
    config.UseDateInFilename sampleFormat ⟨2024, 3, 5, 10, 30, 0⟩
        "/var/log/api\x7d\x7b2006\x7d.log".toList = "/var/log/api\x7d2024.log".toList ∧
    (config.UseDateInFilename sampleFormat ⟨2024, 3, 5, 10, 30, 0⟩
        "/var/log/\x7b\x7bx\x7d\x7d\x7bx\x7d\x7d".toList
        = "/var/log/x\x7bx\x7d\x7d".toList ∧
      expandTokens (sampleFormat ⟨2024, 3, 5, 10, 30, 0⟩) 9
        "\x7b\x7bx\x7d\x7d\x7bx\x7d\x7d".toList = "\x7bx\x7dx\x7d".toList) := by
  decide

/-! ## Properties of the supervisor: `run` -/

theorem lookup_mapSet_self {β : Type} (m : List (Str × β)) (k : Str) (v : β) :
    (mapSet m k v).lookup k = some v := by
  simp [mapSet, List.lookup]

theorem lookup_mapSet_ne {β : Type} (m : List (Str × β)) (k k' : Str) (v : β) (h : k' ≠ k) :
    (mapSet m k v).lookup k' = m.lookup k' := by
  have hb : (k' == k) = false := by simpa using h
  unfold mapSet
  simp only [List.lookup, hb]
  induction m with
  | nil => rfl
  | cons e rest ih =>
    obtain ⟨q, c⟩ := e
    by_cases hq : q = k
    · subst hq
      have hb' : (k' == q) = false := by simpa using h
      have hd : decide ((q, c).1 ≠ q) = false := by simp
      rw [List.filter_cons, hd]
      simp only [Bool.false_eq_true, if_false, List.lookup, hb']
      exact ih
    · have hd : decide ((q, c).1 ≠ k) = true := by simpa using hq
      rw [List.filter_cons, hd]
      simp only [if_true, List.lookup]
      rw [ih]

/-- The fields of the supervisor after one iteration of the setup loop. -/
theorem setupStep_fields (st : Supervisor) (s : config.Service) :
    (setupStep st s).created = st.created + 1 ∧
      (setupStep st s).deferred = Call.stop st.created :: st.deferred ∧
      (setupStep st s).services = mapSet st.services s.Name st.created ∧
      (setupStep st s).servicesWatches
        = (if s.Restart.OnChange then mapSet st.servicesWatches s.BinaryPath s.Name
            else st.servicesWatches) ∧
      (setupStep st s).calls = st.calls ++ Call.start st.created ::
        (if s.Restart.OnChange then [Call.watcherAdd s.BinaryPath] else []) := by
  unfold setupStep
  cases h : s.Restart.OnChange <;> simp

/-- After the setup loop: the deferred calls are the `Stop` of every instance, the one
created last first; the calls made are the `Start` of every instance in order of
creation, and `watcher.Add`. -/
theorem setup_fold (l : List config.Service) (st : Supervisor) :
    ∃ extra, (l.foldl setupStep st).calls = st.calls ++ extra ∧
      extra.filter Call.isStart = (List.range' st.created l.length).map Call.start ∧
      (∀ i, Call.stop i ∉ extra) ∧
      (l.foldl setupStep st).deferred
        = (List.range' st.created l.length).reverse.map Call.stop ++ st.deferred ∧
      (l.foldl setupStep st).created = st.created + l.length := by
  induction l generalizing st with
  | nil => exact ⟨[], by simp, by simp, by simp, by simp, by simp⟩
  | cons s rest ih =>
    obtain ⟨hc, hd, _, _, hcalls⟩ := setupStep_fields st s
    obtain ⟨extra, h1, h2, h3, h4, h5⟩ := ih (setupStep st s)
    refine ⟨Call.start st.created ::
      (if s.Restart.OnChange then [Call.watcherAdd s.BinaryPath] else []) ++ extra, ?_, ?_, ?_, ?_, ?_⟩
    · rw [List.foldl_cons, h1, hcalls]; simp
    · rw [List.length_cons, List.range'_succ, List.map_cons]
      rw [hc] at h2
      cases s.Restart.OnChange <;> simp [Call.isStart, h2]
    · intro i hi
      rcases List.mem_append.mp hi with hi | hi
      · cases s.Restart.OnChange <;> simp at hi
      · exact h3 i hi
    · rw [List.foldl_cons, h4, hd, hc, List.length_cons, List.range'_succ]
      simp
    · rw [List.foldl_cons, h5, hc, List.length_cons]; omega

/-- The goroutine outlives the exit signal. In the sample configuration, a write of the
watched binary that the goroutine receives after the first deferred `Stop` makes it
call `Restart` on the instance just stopped, among the deferred calls of `run`. -/
theorem shutdown_interleaves_restart :
    shutdown (setup sampleConfig) [true, false] (setup sampleConfig).deferred
        [Received.event ⟨"/src/server".toList, opWrite⟩]
      = some [Call.stop 1, Call.restart 1, Call.stop 0, Call.watcherClose] := by
  decide

/-- A configuration that passes the checks has distinct service names. -/
theorem checkServices_nodup (l : List config.Service) (seen : List Str) (i : Nat)
    (h : config.checkServices seen i l = none) :
    (∀ s ∈ l, s.Name ∉ seen) ∧ (l.map (fun s => s.Name)).Nodup := by
  induction l generalizing seen i with
  | nil => simp
  | cons s rest ih =>
    unfold config.checkServices at h
    by_cases h1 : s.Name = []
    · simp [h1] at h
    · by_cases h2 : s.Name ∈ seen
      · simp [h1, h2] at h
      · by_cases h3 : s.BinaryPath = []
        · simp [h1, h2, h3] at h
        · simp only [h1, h2, h3, if_false] at h
          obtain ⟨hseen, hnodup⟩ := ih (s.Name :: seen) (i + 1) h
          refine ⟨?_, ?_⟩
          · intro t ht
            rcases List.mem_cons.mp ht with ht | ht
            · rw [ht]; exact h2
            · exact fun hm => hseen t ht (List.mem_cons_of_mem _ hm)
          · rw [List.map_cons, List.nodup_cons]
            refine ⟨?_, hnodup⟩
            intro hm
            obtain ⟨t, ht, hname⟩ := List.mem_map.mp hm
            exact hseen t ht (by rw [hname]; exact List.mem_cons_self _ _)

theorem fold_services_lookup (l : List config.Service) (st : Supervisor) (name : Str)
    (h : ∀ s ∈ l, s.Name ≠ name) :
    (l.foldl setupStep st).services.lookup name = st.services.lookup name := by
  induction l generalizing st with
  | nil => rfl
  | cons s rest ih =>
    rw [List.foldl_cons, ih (setupStep st s) (fun t ht => h t (List.mem_cons_of_mem _ ht))]
    rw [(setupStep_fields st s).2.2.1]
    exact lookup_mapSet_ne _ _ _ _ (Ne.symm (h s (List.mem_cons_self _ _)))

theorem fold_watches_lookup (l : List config.Service) (st : Supervisor) (path : Str)
    (h : ∀ s ∈ l, s.Restart.OnChange = true → s.BinaryPath ≠ path) :
    (l.foldl setupStep st).servicesWatches.lookup path = st.servicesWatches.lookup path := by
  induction l generalizing st with
  | nil => rfl
  | cons s rest ih =>
    rw [List.foldl_cons, ih (setupStep st s) (fun t ht => h t (List.mem_cons_of_mem _ ht))]
    rw [(setupStep_fields st s).2.2.2.1]
    cases hon : s.Restart.OnChange
    · simp
    · simp only [if_true]
      exact lookup_mapSet_ne _ _ _ _ (Ne.symm (h s (List.mem_cons_self _ _) hon))

/-- C9 (amended): watch bindings drive restarts. In a configuration that passes the
checks, for a service with restart on change whose binary path is not also the binary
path of a later service with restart on change: after the setup loop the watch table
maps its binary path to its name and the service table maps its name to its own
instance, so that a change event for that path whose operation has the write bit calls
`Restart` on that instance and on no other, and the loop goes on. A change event
without the write bit, or for a path with no binding, calls `Restart` on no instance,
and the loop goes on. -/
theorem watch_binding_restarts_own_instance (cfg : config.Config)
    (earlier later : List config.Service) (spec : config.Service)
    (hvalid : config.checkServices [] 0 cfg.Services = none)
    (hcfg : cfg.Services = earlier ++ spec :: later)
    (hon : spec.Restart.OnChange = true)
    (hlast : ∀ s ∈ later, s.Restart.OnChange = true → s.BinaryPath ≠ spec.BinaryPath) :
    (setup cfg).servicesWatches.lookup spec.BinaryPath = some spec.Name ∧
    (setup cfg).services.lookup spec.Name = some earlier.length ∧
    (∀ op rest, op &&& opWrite = opWrite →
      onChange (setup cfg) ⟨spec.BinaryPath, op⟩ = some [Call.restart earlier.length] ∧
      eventLoop (setup cfg) (Received.event ⟨spec.BinaryPath, op⟩ :: rest)
        = (eventLoop (setup cfg) rest).map (fun calls => Call.restart earlier.length :: calls)) ∧
    (∀ e rest, (e.Op &&& opWrite ≠ opWrite ∨ (setup cfg).servicesWatches.lookup e.Name = none) →
      ∃ made, onChange (setup cfg) e = some made ∧ (∀ i, Call.restart i ∉ made) ∧
        eventLoop (setup cfg) (Received.event e :: rest)
          = (eventLoop (setup cfg) rest).map (fun calls => made ++ calls)) := by
  have hnodup := (checkServices_nodup cfg.Services [] 0 hvalid).2
  rw [hcfg, List.map_append, List.map_cons, List.nodup_append] at hnodup
  obtain ⟨_, hnd2, hdisj⟩ := hnodup
  have hlater : ∀ s ∈ later, s.Name ≠ spec.Name := by
    intro s hs heq
    have h1 := (List.nodup_cons.mp hnd2).1
    exact h1 (by rw [← heq]; exact List.mem_map_of_mem _ hs)
  have hsetup : setup cfg = later.foldl setupStep (setupStep (earlier.foldl setupStep
      Supervisor.init) spec) := by
    unfold setup
    rw [hcfg, List.foldl_append, List.foldl_cons]
  have hcreated : (earlier.foldl setupStep Supervisor.init).created = earlier.length := by
    obtain ⟨_, _, _, _, _, h5⟩ := setup_fold earlier Supervisor.init
    rw [h5]; simp [Supervisor.init]
  have hw : (setup cfg).servicesWatches.lookup spec.BinaryPath = some spec.Name := by
    rw [hsetup, fold_watches_lookup later _ _ hlast, (setupStep_fields _ spec).2.2.2.1, hon]
    simp only [if_true]
    exact lookup_mapSet_self _ _ _
  have hs : (setup cfg).services.lookup spec.Name = some earlier.length := by
    rw [hsetup, fold_services_lookup later _ _ hlater, (setupStep_fields _ spec).2.2.1,
      lookup_mapSet_self, hcreated]
  have hrestart : ∀ op, op &&& opWrite = opWrite →
      onChange (setup cfg) ⟨spec.BinaryPath, op⟩ = some [Call.restart earlier.length] := by
    intro op hop
    unfold onChange
    simp only [hop, if_true, hw, hs]
  refine ⟨hw, hs, ?_, ?_⟩
  · intro op rest hop
    refine ⟨hrestart op hop, ?_⟩
    rw [eventLoop, hrestart op hop]
    rfl
  · intro e rest hcase
    have hmade : ∃ made, onChange (setup cfg) e = some made ∧ ∀ i, Call.restart i ∉ made := by
      unfold onChange
      by_cases hop : e.Op &&& opWrite = opWrite
      · rcases hcase with hc | hc
        · exact absurd hop hc
        · simp only [hop, if_true, hc]
          exact ⟨_, rfl, by simp⟩
      · simp only [hop, if_false]
        exact ⟨_, rfl, by simp⟩
    obtain ⟨made, h1, h2⟩ := hmade
    refine ⟨made, h1, h2, ?_⟩
    rw [eventLoop, h1]

/-- Witness of C9 (amended): the service `admin` of the sample configuration, declared
last, is the one a write of the shared binary restarts. -/
theorem watch_binding_restarts_own_instance_witness :
    onChange (setup sampleConfig) ⟨"/src/server".toList, opWrite⟩ = some [Call.restart 1] :=
  ((watch_binding_restarts_own_instance sampleConfig
    [{ sampleConf with Name := "api".toList, BinaryPath := "/src/server".toList }] []
    { sampleConf with Name := "admin".toList, BinaryPath := "/src/server".toList }
    (by decide) (by decide) (by decide) (by decide)).2.2.1 opWrite [] (by decide)).1

/-- Counterexample to C9 as stated. The sample configuration passes the checks and its
two services, both with restart on change, share one binary path: the watch table maps
the path to the second service alone, and a write of the binary restarts the second
instance and not the first. And a change event for the bound path whose operation is a
chmod calls `Restart` on no instance. -/
theorem watch_binding_misses_first_service :
    config.checkServices [] 0 sampleConfig.Services = none ∧
      (sampleConfig.Services.map (fun s => (s.Name, s.BinaryPath, s.Restart.OnChange))
        = [("api".toList, "/src/server".toList, true),
            ("admin".toList, "/src/server".toList, true)]) ∧
      (setup sampleConfig).servicesWatches.lookup "/src/server".toList = some "admin".toList ∧
      onChange (setup sampleConfig) ⟨"/src/server".toList, opWrite⟩ = some [Call.restart 1] ∧
      onChange (setup sampleConfig) ⟨"/src/server".toList, opChmod⟩ = some [] := by
  decide

/-! ## Properties of the liveness lookup: `GetProcess` -/

theorem parseDigits_digits (s : Str) (n : Nat) (h : parseDigits s = some n) :
    s ≠ [] ∧ ∀ c ∈ s, c.isDigit = true := by
  have key : ∀ (l : Str) (acc : Option Nat) (m : Nat),
      l.foldl (fun acc c =>
        match acc with
        | none => none
        | some n => if c.isDigit then some (10 * n + (c.toNat - 48)) else none) acc = some m →
      ∀ c ∈ l, c.isDigit = true := by
    intro l
    induction l with
    | nil => simp
    | cons x xs ih =>
      intro acc m hm c hc
      rw [List.foldl_cons] at hm
      cases acc with
      | none =>
        exfalso
        have hnone : ∀ (l : Str), l.foldl (fun acc c =>
            match acc with
            | none => none
            | some n => if c.isDigit then some (10 * n + (c.toNat - 48)) else none)
            (none : Option Nat) = none := by
          intro l
          induction l with
          | nil => rfl
          | cons y ys ihy => rw [List.foldl_cons]; exact ihy
        simp only at hm
        rw [hnone xs] at hm
        cases hm
      | some a =>
        by_cases hx : x.isDigit = true
        · rcases List.mem_cons.mp hc with hc | hc
          · rw [hc]; exact hx
          · simp only [hx, if_true] at hm
            exact ih _ m hm c hc
        · exfalso
          simp only [hx] at hm
          have hnone : ∀ (l : Str), l.foldl (fun acc c =>
              match acc with
              | none => none
              | some n => if c.isDigit then some (10 * n + (c.toNat - 48)) else none)
              (none : Option Nat) = none := by
            intro l
            induction l with
            | nil => rfl
            | cons y ys ihy => rw [List.foldl_cons]; exact ihy
          simp only [Bool.false_eq_true, if_false] at hm
          rw [hnone xs] at hm
          cases hm
  cases s with
  | nil => simp [parseDigits] at h
  | cons x xs =>
    refine ⟨by simp, ?_⟩
    unfold parseDigits at h
    exact key (x :: xs) (some 0) n h

/-- A string that `ParseInt` accepts is, as a whole, an optional sign followed by
decimal digits. -/
theorem ParseInt_ok_digits (s : Str) (v : Int) (h : ParseInt s = Except.ok v) :
    ∃ digits, digits ≠ [] ∧ (∀ c ∈ digits, c.isDigit = true) ∧
      (s = digits ∨ s = '+' :: digits ∨ s = '-' :: digits) := by
  unfold ParseInt at h
  split at h
  · rename_i digits
    cases hp : parseDigits digits with
    | none => rw [hp] at h; cases h
    | some n =>
      have := parseDigits_digits digits n hp
      exact ⟨digits, this.1, this.2, Or.inr (Or.inr rfl)⟩
  · rename_i digits
    cases hp : parseDigits digits with
    | none => rw [hp] at h; cases h
    | some n =>
      have := parseDigits_digits digits n hp
      exact ⟨digits, this.1, this.2, Or.inr (Or.inl rfl)⟩
  · simp only at h
    cases hp : parseDigits s with
    | none => rw [hp] at h; cases h
    | some n =>
      have := parseDigits_digits s n hp
      exact ⟨s, this.1, this.2, Or.inl rfl⟩

/-- C10: liveness lookup. `GetProcess` returns a process (and no error) exactly when the
pid file opens, its content is read, the whole content parses as a decimal number, the
process is found and the probe with signal 0 succeeds; the process returned is the one
found. In every other case it returns no process and an error that names the first step
that failed, followed by the cause: open, read, parse, find, and `daemon is not running`
when the probe fails. A content that parses is an optional sign followed by digits and
nothing else. -/
theorem GetProcess_result (os : OS) (cfg : config.Config) :
    (∀ p, GetProcess os cfg = Except.ok p ↔
      ∃ file content pid, os.Open cfg.Storage.PidFile = Except.ok file ∧
        os.ReadAll file = Except.ok content ∧ ParseInt content = Except.ok pid ∧
        os.FindProcess pid = Except.ok p ∧ os.Signal0 p = none) ∧
    (∀ err, os.Open cfg.Storage.PidFile = Except.error err →
      GetProcess os cfg = Except.error ("unable to open pid file: ".toList ++ err)) ∧
    (∀ file err, os.Open cfg.Storage.PidFile = Except.ok file →
      os.ReadAll file = Except.error err →
      GetProcess os cfg = Except.error ("unable to read pid file: ".toList ++ err)) ∧
    (∀ file content err, os.Open cfg.Storage.PidFile = Except.ok file →
      os.ReadAll file = Except.ok content → ParseInt content = Except.error err →
      GetProcess os cfg = Except.error ("unable to parse pid file: ".toList ++ err)) ∧
    (∀ file content pid err, os.Open cfg.Storage.PidFile = Except.ok file →
      os.ReadAll file = Except.ok content → ParseInt content = Except.ok pid →
      os.FindProcess pid = Except.error err →
      GetProcess os cfg = Except.error ("cannot find process: ".toList ++ err)) ∧
    (∀ file content pid p err, os.Open cfg.Storage.PidFile = Except.ok file →
      os.ReadAll file = Except.ok content → ParseInt content = Except.ok pid →
      os.FindProcess pid = Except.ok p → os.Signal0 p = some err →
      GetProcess os cfg = Except.error ("daemon is not running: ".toList ++ err)) ∧
    (∀ content pid, ParseInt content = Except.ok pid →
      ∃ digits, digits ≠ [] ∧ (∀ c ∈ digits, c.isDigit = true) ∧
        (content = digits ∨ content = '+' :: digits ∨ content = '-' :: digits)) := by
  refine ⟨?_, ?_, ?_, ?_, ?_, ?_, ParseInt_ok_digits⟩
  · intro p
    constructor
    · intro h
      unfold GetProcess at h
      cases h1 : os.Open cfg.Storage.PidFile with
      | error e => rw [h1] at h; cases h
      | ok file =>
        rw [h1] at h
        simp only at h
        cases h2 : os.ReadAll file with
        | error e => rw [h2] at h; cases h
        | ok content =>
          rw [h2] at h
          simp only at h
          cases h3 : ParseInt content with
          | error e => rw [h3] at h; cases h
          | ok pid =>
            rw [h3] at h
            simp only at h
            cases h4 : os.FindProcess pid with
            | error e => rw [h4] at h; cases h
            | ok q =>
              rw [h4] at h
              simp only at h
              cases h5 : os.Signal0 q with
              | some e => rw [h5] at h; cases h
              | none =>
                rw [h5] at h
                simp only [Except.ok.injEq] at h
                subst h
                exact ⟨file, content, pid, rfl, h2, h3, h4, h5⟩
    · rintro ⟨file, content, pid, h1, h2, h3, h4, h5⟩
      unfold GetProcess
      simp only [h1, h2, h3, h4, h5]
  · intro err h1
    unfold GetProcess
    simp only [h1]
  · intro file err h1 h2
    unfold GetProcess
    simp only [h1, h2]
  · intro file content err h1 h2 h3
    unfold GetProcess
    simp only [h1, h2, h3]
  · intro file content pid err h1 h2 h3 h4
    unfold GetProcess
    simp only [h1, h2, h3, h4]
  · intro file content pid p err h1 h2 h3 h4 h5
    unfold GetProcess
    simp only [h1, h2, h3, h4, h5]

/-- Witness of C10: a pid file that names a process that is gone gives the error
`daemon is not running`; one that names the live process gives that process. -/
theorem GetProcess_result_witness :
    GetProcess (sampleOS "4243".toList) sampleConfig
        = Except.error "daemon is not running: os: process already finished".toList ∧
      GetProcess (sampleOS "4242".toList) sampleConfig = Except.ok ⟨4242⟩ :=
  ⟨(GetProcess_result (sampleOS "4243".toList) sampleConfig).2.2.2.2.2.1 3 "4243".toList 4243
      ⟨4243⟩ "os: process already finished".toList rfl rfl rfl rfl rfl,
    ((GetProcess_result (sampleOS "4242".toList) sampleConfig).1 ⟨4242⟩).mpr
      ⟨3, "4242".toList, 4242, rfl, rfl, rfl, rfl, rfl⟩⟩

/-! ## Properties of `Restart` -/

theorem sendSignal_kill_exit (y : Sys) (h : y.world.proc.killErr = false) :
    (sendSignal Signal.SIGKILL y).2 = false ∧
      (sendSignal Signal.SIGKILL y).1.world.exitAt
        = earliest y.world.exitAt (some (y.world.clock + y.world.proc.killAfter)) := by
  unfold sendSignal
  have : (emit y (Effect.signal Signal.SIGKILL)).world.proc.killErr = false := h
  simp only [this, Bool.false_eq_true, if_false]
  exact ⟨trivial, rfl⟩

theorem closeLogFiles_facts (y : Sys) :
    (closeLogFiles y).svc = y.svc ∧ (closeLogFiles y).world.clock = y.world.clock ∧
      (closeLogFiles y).world.exitAt = y.world.exitAt := by
  unfold closeLogFiles closeFile
  cases h1 : y.svc.logStdout <;> cases h2 : y.svc.logStderr <;> simp [emit, h1, h2]

theorem earliest_some_le (a : Option Nat) (b : Nat) :
    ∃ u, earliest a (some b) = some u ∧ u ≤ b ∧ (∀ t, a = some t → u = min t b) ∧
      (a = none → u = b) := by
  cases a with
  | none => exact ⟨b, rfl, le_refl _, (fun t ht => by cases ht), (fun _ => rfl)⟩
  | some t =>
    exact ⟨min t b, rfl, Nat.min_le_right _ _, (fun u hu => by cases hu; rfl),
      (fun h => by cases h)⟩

/-- The state in which `Stop` returns after it has sent SIGKILL: the instance is as it
was, its running flag still set; 3000 ms have passed; the monitor goroutine will clear
the flag once the killed process has been waited for. -/
theorem Stop_escalated_state (y : Sys) (hrun : IsRunning (monitor y).svc = true)
    (hterm : y.world.proc.termErr = false)
    (hlate : ∀ t, exitAfterTerm y = some t → y.world.clock + 3000 < t)
    (hkill : y.world.proc.killErr = false) :
    (Stop y).svc = y.svc ∧ (Stop y).world.clock = y.world.clock + 3000 ∧
      (Stop y).world.exitAt
        = earliest (exitAfterTerm y) (some (y.world.clock + 3000 + y.world.proc.killAfter)) := by
  have hm := monitor_of_running y hrun
  have hflag : IsRunning y.svc = true := by rw [hm] at hrun; exact hrun
  rw [Stop_of_running y hrun hterm]
  have hw : waitForExit 30 (signalled y) = slept 30 (signalled y) :=
    waitForExit_stays 30 (signalled y) hflag (fun t ht => hlate t ht)
  have hm2 : monitor (slept 30 (signalled y)) = slept 30 (signalled y) :=
    monitor_of_late _ (fun t ht => by
      have := hlate t ht
      show y.world.clock + 100 * 30 < t
      omega)
  simp only [hw, hm2]
  have hflag2 : IsRunning (slept 30 (signalled y)).svc = true := hflag
  simp only [hflag2, if_true]
  obtain ⟨_, f2, f3, _, _⟩ := sendSignal_kill_facts (logf (slept 30 (signalled y))
    ("Service ".toList ++ (slept 30 (signalled y)).svc.conf.Name
      ++ " did not stop, sending SIGKILL".toList))
  obtain ⟨g1, g2⟩ := sendSignal_kill_exit (logf (slept 30 (signalled y))
    ("Service ".toList ++ (slept 30 (signalled y)).svc.conf.Name
      ++ " did not stop, sending SIGKILL".toList)) hkill
  rcases hres : sendSignal Signal.SIGKILL (logf (slept 30 (signalled y))
    ("Service ".toList ++ (slept 30 (signalled y)).svc.conf.Name
      ++ " did not stop, sending SIGKILL".toList)) with ⟨y3, failed⟩
  rw [hres] at f2 f3 g1 g2
  simp only at f2 f3 g1 g2
  subst g1
  simp only
  obtain ⟨c1, c2, c3⟩ := closeLogFiles_facts y3
  refine ⟨by rw [c1, f2]; rfl, by rw [c2, f3]; rfl, ?_⟩
  rw [c3, g2]
  rfl

theorem filter_isLaunch_sleeps (c n : Nat) :
    (sleeps c n).filter (fun e => e.2.isLaunch) = [] := by
  induction n generalizing c with
  | zero => rfl
  | succ n ih =>
    unfold sleeps
    rw [List.filter_cons]
    exact ih (c + 100)

theorem filter_isLaunch_signal (t : Nat) (sig : Signal) (rest : List (Nat × Effect)) :
    ((t, Effect.signal sig) :: rest).filter (fun e => e.2.isLaunch)
      = rest.filter (fun e => e.2.isLaunch) := by
  rw [List.filter_cons]
  rfl

theorem filter_isLaunch_closes (t : Nat) (s : Service) :
    (closes t s).filter (fun e => e.2.isLaunch) = [] := by
  unfold closes
  rw [List.filter_eq_nil_iff]
  intro e he
  obtain ⟨fd, _, hfd⟩ := List.mem_map.mp he
  rw [← hfd]
  simp [Effect.isLaunch]

/-- The defect behind C11, in general: when the process ignores SIGTERM through the
grace window, SIGKILL is delivered and the killed process takes any time at all to be
waited for, `Restart` returns after `Start` has found the running flag still set and
logged its warning: no process is launched, the artifact is the old one, and once the
monitor goroutine has run the instance is not running. -/
theorem Restart_after_escalation (env : Env) (y : Sys)
    (hrun : IsRunning (monitor y).svc = true)
    (hterm : y.world.proc.termErr = false)
    (hlate : ∀ t, exitAfterTerm y = some t → y.world.clock + 3000 < t)
    (hkill : y.world.proc.killErr = false)
    (hslow : 0 < y.world.proc.killAfter) :
    ∃ y', Restart env y = some y' ∧
      y' = logf (Stop y) ("Service ".toList ++ y.svc.conf.Name
        ++ " is already running, double run not supported yet".toList) ∧
      launches y' = launches y ∧ y'.svc.binaryName = y.svc.binaryName ∧
      y'.world.draws = (Stop y).world.draws ∧ IsRunning y'.svc = true ∧
      IsRunning (later y.world.proc.killAfter y').svc = false := by
  have hm := monitor_of_running y hrun
  have hflag : IsRunning y.svc = true := by rw [hm] at hrun; exact hrun
  obtain ⟨s1, s2, s3⟩ := Stop_escalated_state y hrun hterm hlate hkill
  obtain ⟨u, hu, hub, hut, _⟩ := earliest_some_le (exitAfterTerm y)
    (y.world.clock + 3000 + y.world.proc.killAfter)
  have hexit : (Stop y).world.exitAt = some u := by rw [s3, hu]
  have hulate : y.world.clock + 3000 < u := by
    cases he : exitAfterTerm y with
    | none =>
      have : u = y.world.clock + 3000 + y.world.proc.killAfter := by
        rw [he] at hu
        exact (Option.some.inj hu).symm
      omega
    | some t =>
      have h1 := hlate t he
      have h2 := hut t he
      rw [h2]
      exact lt_min h1 (by omega)
  have hmz : monitor (Stop y) = Stop y :=
    monitor_of_late _ (fun t ht => by
      rw [hexit] at ht
      cases ht
      rw [s2]; exact hulate)
  have hflagz : IsRunning (Stop y).svc = true := by rw [s1]; exact hflag
  have hname : (Stop y).svc.conf.Name = y.svc.conf.Name := by rw [s1]
  refine ⟨_, ?_, rfl, ?_, ?_, rfl, hflagz, ?_⟩
  · unfold Restart
    simp only [hm, hflag, if_true]
    unfold Start
    simp only [hmz, hflagz, if_true, hname]
  · show ((Stop y).world.effects.filter (fun e => e.2.isLaunch)).length = launches y
    rw [Stop_escalates y hrun hterm hlate, hkill]
    simp only [Bool.false_eq_true, if_false]
    rw [List.filter_append, List.filter_append, filter_isLaunch_signal,
      filter_isLaunch_signal, filter_isLaunch_sleeps, filter_isLaunch_closes,
      List.append_nil, List.append_nil]
    rfl
  · show (Stop y).svc.binaryName = _
    rw [s1]
  · unfold later
    apply monitor_of_due _ u
    · exact hexit
    · show u ≤ (Stop y).world.clock + y.world.proc.killAfter
      rw [s2]; exact hub

/-- C11 (code bug), evaluated. The sample service runs a process that ignores SIGTERM
and is waited for 5 ms after SIGKILL. `Restart` returns at 3000 ms with the running flag
still set by the old process: the artifact is the old one, one process has been launched
in all, and 5 ms later the instance is not running. With a process that exits on
SIGTERM, `Restart` launches a second process on a new artifact. When delivering SIGTERM
fails, `Restart` launches nothing either. -/
theorem Restart_after_SIGKILL_launches_nothing :
    ((sampleRunning stubbornProc).svc.binaryName = "api-0000002b".toList ∧
      launches (sampleRunning stubbornProc) = 1) ∧
    ((Restart (sampleEnv stubbornProc) (sampleRunning stubbornProc)).map
          (fun y => (y.svc.binaryName, launches y)) = some ("api-0000002b".toList, 1) ∧
      (Restart (sampleEnv stubbornProc) (sampleRunning stubbornProc)).map
          (fun y => (IsRunning y.svc, y.world.clock, y.world.exitAt))
        = some (true, 3000, some 3005) ∧
      (Restart (sampleEnv stubbornProc) (sampleRunning stubbornProc)).map
          (fun y => IsRunning (later 5 y).svc) = some false) ∧
    ((Restart (sampleEnv politeProc) (sampleRunning politeProc)).map
          (fun y => (y.svc.binaryName, launches y)) = some ("api-0000002c".toList, 2) ∧
      (Restart (sampleEnv politeProc) (sampleRunning politeProc)).map
          (fun y => (IsRunning y.svc, y.world.exitAt)) = some (true, none)) ∧
    (Restart (sampleEnv unreachableProc) (sampleRunning unreachableProc)).map
        (fun y => (y.svc.binaryName, launches y)) = some ("api-0000002b".toList, 1) := by
  decide

end Devo
